import Mathlib

/-!  Verification of the VTX v3 core against its natural-language specification.

The C sources of `src/v3` (ring queue `vtx_queue.c`, codec `vtx_codec.c`,
UDP driver `vtx_udp.c`, registry front `vtx.c`) are embedded shallowly:
every C function that the checked properties touch becomes an executable
Lean definition of the same name, structures become Lean structures, and
machine integers are `Nat` with an explicit `% 2^32` where wraparound can
matter.  Pointers into arenas are modelled by integer identifiers, byte
buffers by `List Nat`, and C strings (addresses) by lists of byte values.
Assertion failures and null-pointer crashes are modelled by explicit
`fault` results.  -/

namespace VTX

/-- 2^32, the modulus of the C `uint` type. -/
def U32 : Nat := 4294967296

/-- Unsigned 32-bit addition. -/
def uadd (a b : Nat) : Nat := (a + b) % U32

/-- Unsigned 32-bit subtraction: for `a b < 2^32` this is `(a - b) mod 2^32`. -/
def usub (a b : Nat) : Nat := (a + (U32 - b % U32)) % U32

/-! ## Ring queue (`vtx_queue.c`) -/

/-- Frames are opaque heap objects (`zframe_t *`); the model tracks them by an
identifying number. -/
abbrev Frame := Nat

/-- The structure `struct _queue_t` of `vtx_queue.c`: ring buffer of frames,
element limit, head (oldest) and tail (insertion point) indices. -/
structure Queue where
  queue : List Frame
  limit : Nat
  head : Nat
  tail : Nat
deriving Repr, DecidableEq, Inhabited

/-- The constructor `queue_new`: allocates `limit` slots (the malloc leaves them
uninitialised; the model uses 0, and slots are only read after being written),
head = tail = 0. -/
def queue_new (limit : Nat) : Queue :=
  { queue := List.replicate limit 0, limit := limit, head := 0, tail := 0 }

/-- The function `queue_store`: write the frame at `tail`, bump `tail`; when the
bumped tail meets `head` the queue was full, so bump `head`, destroying the
oldest frame.  The C `grab` flag only decides between taking the caller's
frame and `zframe_dup`; both store the same frame, so the model takes the
frame directly.  The C increment is `++self->tail % self->limit` on `uint`. -/
def queue_store (self : Queue) (frame : Frame) : Queue :=
  let self := { self with queue := self.queue.set self.tail frame,
                          tail := uadd self.tail 1 % self.limit }
  if self.tail = self.head then
    { self with head := uadd self.head 1 % self.limit }
  else self

/-- The function `queue_oldest`: pointer to the oldest frame, NULL when empty. -/
def queue_oldest (self : Queue) : Option Frame :=
  if self.head ≠ self.tail then some (self.queue.getD self.head 0) else none

/-- The function `queue_newest`: pointer to the newest frame, NULL when empty.
The C index expression is `(self->tail + self->limit - 1) % self->limit` in
`uint` arithmetic. -/
def queue_newest (self : Queue) : Option Frame :=
  if self.head ≠ self.tail then
    some (self.queue.getD (usub (uadd self.tail self.limit) 1 % self.limit) 0)
  else none

/-- The function `queue_drop_oldest`: destroy the frame at `head` and bump
`head`, when the queue is not empty. -/
def queue_drop_oldest (self : Queue) : Queue :=
  if self.head ≠ self.tail then { self with head := uadd self.head 1 % self.limit }
  else self

/-- The function `queue_drop_newest`: step `tail` back one slot and destroy the
frame there, when the queue is not empty. -/
def queue_drop_newest (self : Queue) : Queue :=
  if self.head ≠ self.tail then
    { self with tail := usub (uadd self.tail self.limit) 1 % self.limit }
  else self

/-- The function `queue_size`: `(self->tail - self->head + self->limit) %
self->limit` in `uint` arithmetic. -/
def queue_size (self : Queue) : Nat :=
  uadd (usub self.tail self.head) self.limit % self.limit

/-- The number of frames the queue currently holds, computed from the indices
without `uint` wraparound: `(tail + N - head) % N`. -/
def queue_count (self : Queue) : Nat :=
  (self.tail + self.limit - self.head) % self.limit

/-- The frames currently held by the queue, oldest first: the slots from `head`
up to (excluding) `tail`, going round the ring. -/
def queue_contents (self : Queue) : List Frame :=
  (List.range (queue_count self)).map
    (fun i => self.queue.getD ((self.head + i) % self.limit) 0)

/-- The operations a caller can perform on a queue after construction. -/
inductive QOp where
  | store (f : Frame)
  | dropOldest
  | dropNewest
deriving Repr, DecidableEq

/-- Apply one queue operation. -/
def queue_apply (self : Queue) : QOp → Queue
  | .store f => queue_store self f
  | .dropOldest => queue_drop_oldest self
  | .dropNewest => queue_drop_newest self

/-- Run a sequence of queue operations. -/
def queue_run (self : Queue) : List QOp → Queue
  | [] => self
  | op :: ops => queue_run (queue_apply self op) ops

/-- The specification-level effect of one operation on the held frame sequence:
store appends and, when the ring (one slot always unusable) is full, discards
the oldest frame; the drops remove at the respective end. -/
def qabs_apply (limit : Nat) (l : List Frame) : QOp → List Frame
  | .store f =>
      let grown := l ++ [f]
      if grown.length = limit then grown.drop 1 else grown
  | .dropOldest => l.drop 1
  | .dropNewest => l.dropLast

/-- Run a sequence of operations on the specification-level frame sequence. -/
def qabs_run (limit : Nat) (l : List Frame) : List QOp → List Frame
  | [] => l
  | op :: ops => qabs_run limit (qabs_apply limit l op) ops

/-! ## Codec (`vtx_codec.c`)

Byte buffers are `List Nat`; a pointer into the data buffer is an offset.
A `zmq_msg_t` is its payload byte list.  -/

/-- Read the byte at an offset of a buffer (bytes are only read after having
been written on the executions the theorems evaluate; 0 stands for the
uninitialised contents of `malloc`). -/
def bufGet (buf : List Nat) (pos : Nat) : Nat := buf.getD pos 0

/-- Read `n` consecutive bytes starting at an offset (a `memcpy` out of the
buffer). -/
def bufRead (buf : List Nat) (pos n : Nat) : List Nat :=
  (List.range n).map (fun i => bufGet buf (pos + i))

/-- Write the bytes `data` into the buffer starting at `pos` (a `memcpy` into
the buffer). -/
def bufWrite (buf : List Nat) (pos : Nat) : List Nat → List Nat
  | [] => buf
  | b :: bs => bufWrite (buf.set pos b) (pos + 1) bs

/-- The constant `ZMQ_MAX_VSM_SIZE` of 0MQ 2.x: payloads strictly below it are
very small messages, copied into the data ring; others are stored by
reference. -/
def ZMQ_MAX_VSM_SIZE : Nat := 30

/-- The structure `batch_t`: a run of bytes in the data buffer (`data` is the
offset the C pointer stands for), or a stored message reference `msg`. -/
structure BatchT where
  data : Nat
  size : Nat
  msg : Option (List Nat)
  busy : Bool
deriving Repr, DecidableEq, Inhabited

/-- The structure `struct _vtx_codec_t`.  The C `writer` and `reader` pointers
into the batch table are kept as indices. -/
structure Codec where
  batch : List BatchT
  buffer : List Nat
  batch_limit : Nat
  buffer_limit : Nat
  batch_tail : Nat
  batch_head : Nat
  buffer_tail : Nat
  buffer_head : Nat
  writer : Nat
  reader : Nat
  free_space : Nat
  active : Nat
  extract_data : Nat
  extract_size : Nat
deriving Repr, DecidableEq, Inhabited

/-- The macro `BATCH_TABLE_FULL`. -/
def BATCH_TABLE_FULL (self : Codec) : Prop :=
  (self.batch_tail + 1) % self.batch_limit = self.batch_head

instance : DecidablePred BATCH_TABLE_FULL := fun self =>
  inferInstanceAs (Decidable ((self.batch_tail + 1) % self.batch_limit = self.batch_head))

/-- The batch-table entry the codec's `writer` pointer refers to. -/
def writerBatch (self : Codec) : BatchT := self.batch.getD self.writer default

/-- Update the batch-table entry the codec's `writer` pointer refers to. -/
def setWriter (self : Codec) (f : BatchT → BatchT) : Codec :=
  { self with batch := self.batch.set self.writer (f (writerBatch self)) }

/-- The batch-table entry the codec's `reader` pointer refers to. -/
def readerBatch (self : Codec) : BatchT := self.batch.getD self.reader default

/-- Update the batch-table entry the codec's `reader` pointer refers to. -/
def setReader (self : Codec) (f : BatchT → BatchT) : Codec :=
  { self with batch := self.batch.set self.reader (f (readerBatch self)) }

/-- The helper `s_batch_start`: open a new writer batch at the current buffer
tail; `none` models the C return -1 when the batch table is full. -/
def s_batch_start (self : Codec) : Option Codec :=
  if BATCH_TABLE_FULL self then none
  else
    let self := { self with writer := self.batch_tail }
    let self := setWriter self (fun _ =>
      { size := 0, data := self.buffer_tail, msg := none, busy := false })
    some { self with batch_tail := uadd self.batch_tail 1 % self.batch_limit }

/-- The constructor `vtx_codec_new`.  The source initialises `buffer_tail` to a
random position (`s_random (self->buffer_limit)`, marked TEST in the source)
to exercise end conditions; the model takes that position as the `start`
parameter. -/
def vtx_codec_new (limit start : Nat) : Codec :=
  let self : Codec :=
    { batch := List.replicate (limit + 1) default,
      buffer := List.replicate (limit * ZMQ_MAX_VSM_SIZE * 10 / 8) 0,
      batch_limit := limit + 1,
      buffer_limit := limit * ZMQ_MAX_VSM_SIZE * 10 / 8,
      batch_tail := 0, batch_head := 0,
      buffer_tail := start, buffer_head := start,
      writer := 0, reader := 0, free_space := 0, active := 0,
      extract_data := 0, extract_size := 0 }
  (s_batch_start self).getD self

/-- The helper `s_batch_ready`: check for sufficient contiguous space for
`required` bytes and prepare the writer, possibly wrapping the data buffer
tail back to offset zero.  `none` models the C return -1 (store full). -/
def s_batch_ready (self : Codec) (required : Nat) : Option Codec :=
  let opened : Option Codec :=
    if (writerBatch self).msg.isSome ∨ (writerBatch self).busy = true then
      s_batch_start self
    else some self
  match opened with
  | none => none
  | some self =>
    if self.buffer_head ≤ self.buffer_tail then
      let self := { self with free_space := self.buffer_limit - self.buffer_tail }
      if self.free_space < required + 1 then
        let self := { self with free_space := self.buffer_head }
        if self.free_space < required + 1 then none
        else
          let wrapped : Option Codec :=
            if (writerBatch self).size ≠ 0 then s_batch_start self else some self
          match wrapped with
          | none => none
          | some self =>
            let self := { self with buffer_tail := 0 }
            some (setWriter self (fun b => { b with data := 0 }))
      else
        if self.free_space = required + 1 ∧ BATCH_TABLE_FULL self then none
        else some self
    else
      let self := { self with free_space := self.buffer_head - self.buffer_tail - 1 }
      if self.free_space < required + 1 then none
      else some self

/-- The helper `s_batch_store`: copy `data` to the buffer tail, grow the writer
batch, and when the tail reaches the end of the buffer start a new batch
(whose C return value is ignored at that call site). -/
def s_batch_store (self : Codec) (data : List Nat) : Codec :=
  let self := setWriter self (fun b => { b with size := b.size + data.length })
  let self := { self with buffer := bufWrite self.buffer self.buffer_tail data,
                          buffer_tail := self.buffer_tail + data.length }
  if self.buffer_tail = self.buffer_limit then (s_batch_start self).getD self
  else self

/-- The helper `s_put_zmq_header`: encode the frame header; the stored length
`msg size + 1` folds the more octet in. -/
def s_put_zmq_header (msg : List Nat) (more : Bool) : List Nat :=
  let frame_size := msg.length + 1
  if frame_size < 255 then
    [frame_size, if more then 1 else 0]
  else
    [255,
     frame_size / 2 ^ 56 % 256, frame_size / 2 ^ 48 % 256,
     frame_size / 2 ^ 40 % 256, frame_size / 2 ^ 32 % 256,
     frame_size / 2 ^ 24 % 256, frame_size / 2 ^ 16 % 256,
     frame_size / 2 ^ 8 % 256, frame_size % 256,
     if more then 1 else 0]

/-- The function `vtx_codec_msg_put`: store a message, small ones by copy into
the data ring, large ones (size at least `ZMQ_MAX_VSM_SIZE`) by reference in a
batch of their own.  `none` models the C return -1 (store full).  When the
`s_batch_start` before storing the reference fails, the C code ignores the
return value and overwrites the current writer's `msg`; the model mirrors
that with `getD`. -/
def vtx_codec_msg_put (self : Codec) (msg : List Nat) (more : Bool) : Option Codec :=
  let header := s_put_zmq_header msg more
  let msg_size := msg.length
  if msg_size < ZMQ_MAX_VSM_SIZE then
    match s_batch_ready self (header.length + msg_size) with
    | none => none
    | some self =>
      let self := s_batch_store self header
      let self := s_batch_store self msg
      some { self with active := self.active + header.length + msg_size }
  else
    match s_batch_ready self header.length with
    | none => none
    | some self =>
      if BATCH_TABLE_FULL self then none
      else
        let self := s_batch_store self header
        let self := (s_batch_start self).getD self
        let self := setWriter self (fun b => { b with msg := some msg })
        some { self with active := self.active + header.length + msg_size }

/-- Result of `s_get_zmq_header`: `fault` models the failing `assert
(frame_size > 0)` on a zero length octet; `insufficient` the return 0 when
`active` holds less than the announced frame. -/
inductive HeaderResult where
  | fault
  | insufficient
  | ok (header_size msg_size : Nat) (more : Bool)
deriving Repr, DecidableEq

/-- The helper `s_get_zmq_header`: decode a frame header at offset `pos` of the
data buffer and size the output message (`zmq_msg_init_size (msg, frame_size
- 1)`). -/
def s_get_zmq_header (self : Codec) (pos : Nat) : HeaderResult :=
  let frame_size := bufGet self.buffer pos
  if frame_size < 255 then
    if frame_size = 0 then .fault
    else if self.active < frame_size then .insufficient
    else .ok 2 (frame_size - 1) (bufGet self.buffer (pos + 1) = 1)
  else
    let frame_size :=
      bufGet self.buffer (pos + 1) * 2 ^ 56 + bufGet self.buffer (pos + 2) * 2 ^ 48 +
      bufGet self.buffer (pos + 3) * 2 ^ 40 + bufGet self.buffer (pos + 4) * 2 ^ 32 +
      bufGet self.buffer (pos + 5) * 2 ^ 24 + bufGet self.buffer (pos + 6) * 2 ^ 16 +
      bufGet self.buffer (pos + 7) * 2 ^ 8 + bufGet self.buffer (pos + 8)
    if frame_size = 0 then .fault
    else if self.active < frame_size then .insufficient
    else .ok 10 (frame_size - 1) (bufGet self.buffer (pos + 9) = 1)

/-- Result of `vtx_codec_msg_get`: `err` is the C return -1 (no complete
message available), `fault` a failing assertion, `ok` carries the extracted
payload, its more flag and the new codec state. -/
inductive GetResult where
  | err
  | fault
  | ok (payload : List Nat) (more : Bool) (next : Codec)
deriving Repr, DecidableEq

/-- First part of `vtx_codec_msg_get`: find a batch to extract when not
already extracting; `none` is the "no complete message" return. -/
def msg_get_start (self : Codec) : Option Codec :=
  if self.extract_size = 0 then
    if self.batch_head = self.batch_tail then none
    else
      let self := { self with reader := self.batch_head }
      let self := setReader self (fun b => { b with busy := true })
      some { self with extract_data := (readerBatch self).data,
                       extract_size := (readerBatch self).size }
  else some self

/-- Payload arm of `vtx_codec_msg_get`: the message body lies inside the
current run; copy it out and step past it, dropping the batch when the run
is used up. -/
def msg_get_small (self : Codec) (msg_size : Nat) (more : Bool) : GetResult :=
  let payload := bufRead self.buffer self.extract_data msg_size
  let self : Codec :=
    if msg_size ≠ 0 then
      let self := { self with extract_data := self.extract_data + msg_size,
                              extract_size := self.extract_size - msg_size }
      { self with buffer_head := self.extract_data }
    else self
  let self : Codec :=
    if self.extract_size = 0 then
      { self with batch_head := uadd self.batch_head 1 % self.batch_limit }
    else self
  .ok payload more self

/-- Tail of the next-batch arm of `vtx_codec_msg_get`: the following batch is
a run; copy the payload out of it and step past. -/
def msg_get_large_fin (self : Codec) (msg_size : Nat) (more : Bool) :
    GetResult :=
  let payload := bufRead self.buffer self.extract_data msg_size
  let self := { self with extract_data := self.extract_data + msg_size,
                          extract_size := self.extract_size - msg_size }
  let self := { self with buffer_head := self.extract_data }
  let self : Codec :=
    if self.extract_size = 0 then
      { self with batch_head := uadd self.batch_head 1 % self.batch_limit }
    else self
  .ok payload more self

/-- Next-batch arm of `vtx_codec_msg_get`: the current run is exhausted; drop
the finished batch and take the payload from the next batch, which is either
a run or a message reference (`assert (reader->msg)`; the reference is
copied out, closed and freed — the C code does not advance `batch_head`
past it). -/
def msg_get_large (self : Codec) (msg_size : Nat) (more : Bool) : GetResult :=
  let self := { self with batch_head := uadd self.batch_head 1 % self.batch_limit }
  let self := { self with reader := self.batch_head }
  if (readerBatch self).size ≠ 0 then
    let self := setReader self (fun b => { b with busy := true })
    let self := { self with extract_data := (readerBatch self).data,
                            extract_size := (readerBatch self).size }
    msg_get_large_fin self msg_size more
  else
    match (readerBatch self).msg with
    | none => .fault
    | some m =>
      let self := setReader self (fun b => { b with msg := none })
      .ok m more self

/-- The function `vtx_codec_msg_get`: extract the next message.  Follows the C
control flow: find a batch to extract if necessary (`assert (extract_size)`),
decode the header, then either take the payload from the current run
(`msg_get_small`) or from the next batch (`msg_get_large`). -/
def vtx_codec_msg_get (self : Codec) : GetResult :=
  match msg_get_start self with
  | none => .err
  | some self =>
    if self.extract_size = 0 then .fault
    else
      match s_get_zmq_header self self.extract_data with
      | .fault => .fault
      | .insufficient => .err
      | .ok header_size msg_size more =>
        let self := { self with extract_data := self.extract_data + header_size,
                                extract_size := self.extract_size - header_size,
                                active := self.active - (header_size + msg_size) }
        let self := { self with buffer_head := self.extract_data }
        if self.extract_size ≠ 0 ∨ msg_size = 0 then
          msg_get_small self msg_size more
        else
          msg_get_large self msg_size more

/-- The function `vtx_codec_bin_put`: store raw serialized bytes. -/
def vtx_codec_bin_put (self : Codec) (data : List Nat) : Option Codec :=
  match s_batch_ready self data.length with
  | none => none
  | some self =>
    let self := s_batch_store self data
    some { self with active := self.active + data.length }

/-- The function `vtx_codec_active`. -/
def vtx_codec_active (self : Codec) : Nat := self.active

/-! ## czmq containers and message codec

The driver uses the external czmq library for hashes, lists and message
serialization.  Hashes are association lists (czmq keys are unique), czmq
lists are Lean lists, and `zmsg_t` is the list of its frames, each a byte
list.  The functions below model the documented czmq 1.x behaviour. -/

/-- A 0MQ message: a list of frames, each a list of bytes. -/
abbrev Zmsg := List (List Nat)

/-- czmq `zhash_lookup`: the item stored under a key, if any. -/
def zhash_lookup [DecidableEq K] (h : List (K × V)) (key : K) : Option V :=
  match h with
  | [] => none
  | kv :: t => if kv.1 = key then some kv.2 else zhash_lookup t key

/-- czmq `zhash_insert`: insert under a new key; when the key is already
present czmq returns -1 and leaves the table unchanged. -/
def zhash_insert [DecidableEq K] (h : List (K × V)) (key : K) (v : V) : List (K × V) :=
  if (zhash_lookup h key).isSome then h else h ++ [(key, v)]

/-- czmq `zhash_delete`: remove the entry stored under a key (the free
function called on the stored item is modelled at the call sites). -/
def zhash_delete [DecidableEq K] (h : List (K × V)) (key : K) : List (K × V) :=
  h.filter (fun kv => decide (kv.1 ≠ key))

/-- czmq `zhash_rename`: move an item to a new key; fails (-1, modelled
`none`) when the old key is absent or the new key is taken. -/
def zhash_rename [DecidableEq K] (h : List (K × V)) (oldKey newKey : K) :
    Option (List (K × V)) :=
  match zhash_lookup h oldKey with
  | none => none
  | some v =>
    if (zhash_lookup h newKey).isSome then none
    else some (zhash_delete h oldKey ++ [(newKey, v)])

/-- czmq `zmsg_encode`: each frame is prefixed by one length octet, or by
0xFF and a four-octet big-endian length for frames of 255 bytes or more. -/
def zmsg_encode (msg : Zmsg) : List Nat :=
  match msg with
  | [] => []
  | frame :: rest =>
    (if frame.length < 255 then [frame.length]
     else [255, frame.length / 2 ^ 24 % 256, frame.length / 2 ^ 16 % 256,
           frame.length / 2 ^ 8 % 256, frame.length % 256])
      ++ frame ++ zmsg_encode rest

/-- The parse loop of czmq `zmsg_decode`, with explicit fuel so that the
recursion is structural: every step consumes at least the length octet, so
`data.length` steps always suffice and the fuel never runs out. -/
def zmsg_decode_steps (fuel : Nat) (data : List Nat) : Option Zmsg :=
  match fuel, data with
  | _, [] => some []
  | 0, _ :: _ => none
  | fuel + 1, sz :: rest =>
    if sz = 255 then
      match rest with
      | b1 :: b2 :: b3 :: b4 :: rest2 =>
        let n := b1 * 2 ^ 24 + b2 * 2 ^ 16 + b3 * 2 ^ 8 + b4
        if n ≤ rest2.length then
          match zmsg_decode_steps fuel (rest2.drop n) with
          | none => none
          | some frames => some (rest2.take n :: frames)
        else none
      | _ => none
    else
      if sz ≤ rest.length then
        match zmsg_decode_steps fuel (rest.drop sz) with
        | none => none
        | some frames => some (rest.take sz :: frames)
      else none

/-- czmq `zmsg_decode`: parse the frame lengths back; `none` (NULL) when the
data ends inside a frame. -/
def zmsg_decode (data : List Nat) : Option Zmsg :=
  zmsg_decode_steps data.length data

/-! ## UDP driver (`vtx_udp.c`, `vtx_udp.h`, `vtx.h`) -/

def VTX_ROUTING_NONE : Nat := 0
def VTX_ROUTING_REQUEST : Nat := 1
def VTX_ROUTING_REPLY : Nat := 2
def VTX_ROUTING_DEALER : Nat := 3
def VTX_ROUTING_ROUTER : Nat := 4
def VTX_ROUTING_PUBLISH : Nat := 5
def VTX_ROUTING_SINGLE : Nat := 6
def VTX_MAX_PEERINGS : Nat := 512

/-- 0MQ 2.x socket type codes, matching the `type_name` table order in
`vocket_destroy`. -/
def ZMQ_PAIR : Nat := 0
def ZMQ_PUB : Nat := 1
def ZMQ_SUB : Nat := 2
def ZMQ_REQ : Nat := 3
def ZMQ_REP : Nat := 4
def ZMQ_DEALER : Nat := 5
def ZMQ_ROUTER : Nat := 6
def ZMQ_PULL : Nat := 7
def ZMQ_PUSH : Nat := 8

/-- The scheme string "udp". -/
def VTX_UDP_SCHEME : List Nat := [117, 100, 112]

def VTX_UDP_MSGMAX : Nat := 512
def VTX_UDP_TIMEOUT : Nat := 10000
def VTX_UDP_OHAI_IVL : Nat := 1000
def VTX_UDP_RESEND_IVL : Nat := 500
def VTX_UDP_VERSION : Nat := 1
def VTX_UDP_ROTFL : Nat := 0
def VTX_UDP_OHAI : Nat := 1
def VTX_UDP_OHAI_OK : Nat := 2
def VTX_UDP_HUGZ : Nat := 3
def VTX_UDP_HUGZ_OK : Nat := 4
def VTX_UDP_NOM : Nat := 5
def VTX_UDP_CMDLIMIT : Nat := 6
def VTX_UDP_HEADER : Nat := 2

/-- Modelled from the spec: the constant `VTX_UDP_RESEND` is used by
`vtx_udp.c` but its definition is missing from the sources present; the
spec defines exactly one flag, RESEND, as bit 0 of the flags nibble, so the
mask is 1. -/
def VTX_UDP_RESEND : Nat := 1

/-- The byte value of the character `:`. -/
def colonByte : Nat := 58

/-- The byte value of the character `*`. -/
def starByte : Nat := 42

/-- The host part of a `host:port` address string: the bytes before the first
colon. -/
def hostOf (address : List Nat) : List Nat := address.takeWhile (fun b => b ≠ colonByte)

/-- The port part of a `host:port` address string: the bytes after the first
colon. -/
def portOf (address : List Nat) : List Nat :=
  (address.dropWhile (fun b => b ≠ colonByte)).drop 1

/-- The broadcast IP address of the last suitable interface, as
`s_broadcast_addr` obtains it from the operating system; an environment
constant, modelled as an opaque non-wildcard host string without colon or
NUL bytes. -/
def s_broadcast_addr : List Nat := [66, 67]

/-- `INADDR_ANY` as a host string, for incoming wildcard resolution. -/
def inaddr_any : List Nat := [65, 78, 89]

/-- The utility `s_str_to_sin_addr`: resolve `host:port` to a socket address,
substituting `wildcard` for the host `*`.  Socket addresses are modelled as
the resolved `host:port` strings, which also makes `s_sin_addr_to_str` the
identity.  The source asserts that a colon is present and can fail on an
unresolvable hostname; the claims only use numeric or wildcard addresses
with a port, for which resolution succeeds. -/
def s_str_to_sin_addr (address wildcard : List Nat) : List Nat :=
  if hostOf address = [starByte] then wildcard ++ colonByte :: portOf address
  else address

/-- The structure `struct _peering_t`.  The `addr` and `bcast` socket
addresses are the resolved address strings; `request` and `reply` hold the
stored messages. -/
structure Peering where
  alive : Bool
  outgoing : Bool
  address : List Nat
  expiry : Nat
  broadcast : Bool
  silent : Nat
  addr : List Nat
  bcast : List Nat
  request : Option Zmsg
  reply : Option Zmsg
  sendseq : Nat
  recvseq : Nat
deriving Repr, DecidableEq, Inhabited

/-- The structure `struct _binding_t` (the UDP handle is operating-system
state; the model keeps the full textual address the binding was created
from, which the C code strdups before truncating the key). -/
structure Binding where
  address : List Nat
deriving Repr, DecidableEq, Inhabited

/-- The structure `struct _vocket_t`.  Peerings are owned by an arena `store`
indexed by integer identifiers (the C heap pointers); `peering_hash`,
`peering_list` and `live_peerings` hold identifiers.  The ghost fields
`sent` (datagrams passed to `sendto`, with their destination socket
address) and `piped` (messages passed to the application msgpipe) record
the driver's observable output. -/
structure Vocket where
  binding_hash : List (List Nat × Binding)
  peering_hash : List (List Nat × Nat)
  store : List (Nat × Peering)
  peering_list : List Nat
  live_peerings : List Nat
  reply_to : Option Nat
  peerings : Nat
  sender : List Nat
  routing : Nat
  nomnom : Bool
  min_peerings : Nat
  max_peerings : Nat
  nextId : Nat
  outgoing : Nat
  incoming : Nat
  outpiped : Nat
  inpiped : Nat
  dropped : Nat
  sent : List (List Nat × List Nat)
  piped : List Zmsg
deriving Repr, DecidableEq, Inhabited

/-- The socket-type configuration table `s_vocket_config`: routing, nomnom,
min peerings, max peerings. -/
def s_vocket_config : List (Nat × Nat × Bool × Nat × Nat) :=
  [(ZMQ_REQ, VTX_ROUTING_REQUEST, true, 1, VTX_MAX_PEERINGS),
   (ZMQ_REP, VTX_ROUTING_REPLY, true, 1, VTX_MAX_PEERINGS),
   (ZMQ_ROUTER, VTX_ROUTING_ROUTER, true, 0, VTX_MAX_PEERINGS),
   (ZMQ_DEALER, VTX_ROUTING_DEALER, true, 1, VTX_MAX_PEERINGS),
   (ZMQ_PUB, VTX_ROUTING_PUBLISH, false, 0, VTX_MAX_PEERINGS),
   (ZMQ_SUB, VTX_ROUTING_NONE, true, 1, VTX_MAX_PEERINGS),
   (ZMQ_PUSH, VTX_ROUTING_DEALER, false, 1, VTX_MAX_PEERINGS),
   (ZMQ_PULL, VTX_ROUTING_NONE, true, 1, VTX_MAX_PEERINGS),
   (ZMQ_PAIR, VTX_ROUTING_SINGLE, true, 1, 1)]

/-- The constructor `vocket_new` for a given socket type; `none` models the
`exit (1)` on an invalid type.  The msgpipe, the outgoing UDP handle and the
reactor registration are host and operating-system state outside the model. -/
def vocket_new (socktype : Nat) : Option Vocket :=
  match (s_vocket_config.filter (fun e => e.1 = socktype)).head? with
  | none => none
  | some e =>
    some { binding_hash := [], peering_hash := [], store := [],
           peering_list := [], live_peerings := [], reply_to := none,
           peerings := 0, sender := [],
           routing := e.2.1, nomnom := e.2.2.1,
           min_peerings := e.2.2.2.1, max_peerings := e.2.2.2.2,
           nextId := 0, outgoing := 0, incoming := 0,
           outpiped := 0, inpiped := 0, dropped := 0,
           sent := [], piped := [] }

/-- Look a peering up in the vocket's arena by its identifier. -/
def getPeering (v : Vocket) (id : Nat) : Option Peering :=
  zhash_lookup v.store id

/-- Update the peering with the given identifier in the vocket's arena. -/
def updatePeering (v : Vocket) (id : Nat) (f : Peering → Peering) : Vocket :=
  { v with store := v.store.map (fun e => if e.1 = id then (e.1, f e.2) else e) }

/-- Result of a driver handler: `fault` models a failing assertion or a
null-pointer dereference — the driver process aborts. -/
inductive SBResult where
  | fault
  | done (v : Vocket)
deriving Repr, DecidableEq

/-- The function `peering_send`: format the two-byte command header, send the
datagram (recorded in the `sent` ghost log) and push back the `silent`
deadline.  Over-long messages are dropped with a warning (the C return code
stays 0).  The `sendto` error paths are operating-system state outside the
model, where the send succeeds. -/
def peering_send (v : Vocket) (id : Nat) (command : Nat) (data : List Nat)
    (flags : Nat) (now : Nat) : Vocket :=
  match getPeering v id with
  | none => v
  | some p =>
    if data.length + VTX_UDP_HEADER ≤ VTX_UDP_MSGMAX then
      let buffer := (VTX_UDP_VERSION * 16 + flags % 16) ::
                    (command * 16 + p.sendseq % 16) :: data
      let v := { v with sent := v.sent ++ [(p.addr, buffer)] }
      updatePeering v id (fun q => { q with silent := now + VTX_UDP_TIMEOUT / 3 })
    else v

/-- The function `peering_send_msg`: `zmsg_encode` the message and send it as a
NOM; counts one outgoing message on the vocket. -/
def peering_send_msg (v : Vocket) (id : Nat) (msg : Zmsg) (flags : Nat)
    (now : Nat) : Vocket :=
  let v := peering_send v id VTX_UDP_NOM (zmsg_encode msg) flags now
  { v with outgoing := v.outgoing + 1 }

/-- The function `peering_raise`: if the peering was not alive, mark it alive,
set its expiry and silence deadlines and append it to `live_peerings`.  The
reactor poller toggle at `min_peerings` is event-loop state outside the
model. -/
def peering_raise (v : Vocket) (id : Nat) (now : Nat) : Vocket :=
  match getPeering v id with
  | none => v
  | some p =>
    if p.alive then v
    else
      let v := updatePeering v id (fun q =>
        { q with alive := true, expiry := now + VTX_UDP_TIMEOUT,
                 silent := now + VTX_UDP_TIMEOUT / 3 })
      { v with live_peerings := v.live_peerings ++ [id] }

/-- The function `peering_lower`: if the peering was alive, mark it dead and
remove it from `live_peerings` (`zlist_remove` drops the first occurrence). -/
def peering_lower (v : Vocket) (id : Nat) : Vocket :=
  match getPeering v id with
  | none => v
  | some p =>
    if p.alive then
      let v := updatePeering v id (fun q => { q with alive := false })
      { v with live_peerings := v.live_peerings.erase id }
    else v

/-- The free function `peering_delete`, run when a peering is removed from
`peering_hash`: destroy the stored request and reply, lower, remove from
`peering_list` and the arena, and count the peering gone. -/
def peering_delete (v : Vocket) (id : Nat) : Vocket :=
  match getPeering v id with
  | none => v
  | some _ =>
    let v := peering_lower v id
    { v with peering_list := v.peering_list.erase id,
             store := v.store.filter (fun e => decide (e.1 ≠ id)),
             peerings := v.peerings - 1 }

/-- The function `peering_destroy`: deletes the hash entry under the peering's
address, which triggers `peering_delete` on the item stored there. -/
def peering_destroy (v : Vocket) (id : Nat) : Vocket :=
  match getPeering v id with
  | none => v
  | some p =>
    match zhash_lookup v.peering_hash p.address with
    | none => v
    | some id2 =>
      let v := { v with peering_hash := zhash_delete v.peering_hash p.address }
      peering_delete v id2

/-- The reactor handler `s_peering_monitor` for one peering: on expiry of an
alive peering lower it and, for a broadcast peering, rename its key back to
the textual broadcast address (`assert (rc == 0)` on the rename becomes
`fault`); an expired incoming peering is destroyed; a silent alive peering
sends HUGZ; a dead outgoing peering sends OHAI with its current address as
body.  The timer re-arming is event-loop state outside the model. -/
def s_peering_monitor (v : Vocket) (id : Nat) (now : Nat) : SBResult :=
  match getPeering v id with
  | none => .done v
  | some p =>
    if p.alive then
      if p.expiry < now then
        let v := peering_lower v id
        if p.broadcast then
          let address := p.bcast
          match zhash_rename v.peering_hash p.address address with
          | none => .fault
          | some h =>
            let v := { v with peering_hash := h }
            .done (updatePeering v id (fun q =>
              { q with addr := p.bcast, address := address }))
        else if p.outgoing = false then
          .done (peering_destroy v id)
        else .done v
      else if p.silent < now then
        .done (peering_send v id VTX_UDP_HUGZ [] 0 now)
      else .done v
    else if p.outgoing then
      .done (peering_send v id VTX_UDP_OHAI p.address 0 now)
    else .done v

/-- The reactor handler `s_resend_timer`: re-send a pending request NOM with
the RESEND flag while the peering is alive. -/
def s_resend_timer (v : Vocket) (id : Nat) (now : Nat) : Vocket :=
  match getPeering v id with
  | none => v
  | some p =>
    match p.request with
    | some req => if p.alive then peering_send_msg v id req VTX_UDP_RESEND now else v
    | none => v

/-- The function `peering_require`: look the address up in `peering_hash`,
creating the peering when absent: resolve the socket address (broadcast
wildcard when outgoing, ANY when incoming), set the broadcast flag for an
outgoing `*` address, run the peering monitor once (which sends the first
OHAI for an outgoing peering), and store the peering in the hash, the list
and the counter.  Returns the peering's identifier. -/
def peering_require (v : Vocket) (address : List Nat) (outg : Bool) (now : Nat) :
    Vocket × Nat :=
  match zhash_lookup v.peering_hash address with
  | some id => (v, id)
  | none =>
    let sin := s_str_to_sin_addr address (if outg then s_broadcast_addr else inaddr_any)
    let isB : Bool := outg && (address.headD 0 == starByte)
    let p : Peering :=
      { alive := false, outgoing := outg, address := address,
        expiry := 0, broadcast := isB, silent := 0, addr := sin,
        bcast := if isB then sin else [], request := none, reply := none,
        sendseq := 0, recvseq := 0 }
    let id := v.nextId
    let v := { v with store := v.store ++ [(id, p)], nextId := id + 1 }
    let v := match s_peering_monitor v id now with
             | .done v2 => v2
             | .fault => v
    let v := { v with peering_hash := zhash_insert v.peering_hash address id,
                      peering_list := v.peering_list ++ [id],
                      peerings := v.peerings + 1 }
    (v, id)

/-- The reactor handler `s_vocket_input`: route one message from the
application according to the vocket's routing rule.  `fault` models the
`assert (peering)` after the REQUEST pop and the null-pointer dereferences
the DEALER and SINGLE arms make when `live_peerings` is empty. -/
def s_vocket_input (v : Vocket) (msg : Zmsg) (now : Nat) : SBResult :=
  if v.live_peerings.length < v.min_peerings then .done v
  else
    let v := { v with outpiped := v.outpiped + 1 }
    if v.routing = VTX_ROUTING_NONE then .done v
    else if v.routing = VTX_ROUTING_REQUEST then
      match v.live_peerings with
      | [] => .fault
      | id :: rest =>
        let v := { v with live_peerings := rest }
        match getPeering v id with
        | none => .fault
        | some p =>
          let v :=
            if p.request.isNone then
              let v := updatePeering v id (fun q =>
                { q with sendseq := uadd q.sendseq 1, request := some msg })
              peering_send_msg v id msg 0 now
            else v
          .done { v with live_peerings := v.live_peerings ++ [id] }
    else if v.routing = VTX_ROUTING_REPLY then
      match v.reply_to with
      | some id =>
        match getPeering v id with
        | none => .fault
        | some _ =>
          let v := updatePeering v id (fun q =>
            { q with reply := some msg, sendseq := q.recvseq })
          let v := peering_send_msg v id msg 0 now
          .done { v with reply_to := none }
      | none => .done v
    else if v.routing = VTX_ROUTING_DEALER then
      match v.live_peerings with
      | [] => .fault
      | id :: rest =>
        let v := { v with live_peerings := rest }
        match getPeering v id with
        | none => .fault
        | some _ =>
          let v := updatePeering v id (fun q =>
            { q with sendseq := q.recvseq, reply := some msg })
          let v := peering_send_msg v id msg 0 now
          .done { v with live_peerings := v.live_peerings ++ [id] }
    else if v.routing = VTX_ROUTING_ROUTER then
      match msg with
      | [] => .fault
      | addressFrame :: rest =>
        let address := addressFrame.takeWhile (fun b => b ≠ 0)
        if address.take 3 = VTX_UDP_SCHEME ∧ (address.drop 3).take 3 = [58, 47, 47] then
          match zhash_lookup v.peering_hash (address.drop 6) with
          | some id =>
            match getPeering v id with
            | none => .fault
            | some p =>
              if p.alive then
                let v := updatePeering v id (fun q =>
                  { q with reply := some rest, sendseq := q.recvseq })
                .done (peering_send_msg v id rest 0 now)
              else .done v
          | none => .done v
        else .done v
    else if v.routing = VTX_ROUTING_PUBLISH then
      .done (v.live_peerings.foldl (fun acc id => peering_send_msg acc id msg 0 now) v)
    else if v.routing = VTX_ROUTING_SINGLE then
      match v.live_peerings with
      | [] => .fault
      | id :: _ => .done (peering_send_msg v id msg 0 now)
    else .done v

/-- The ROTFL reason text "Max peerings reached for socket". -/
def maxPeeringsReason : List Nat :=
  [77, 97, 120, 32, 112, 101, 101, 114, 105, 110, 103, 115, 32, 114, 101, 97,
   99, 104, 101, 100, 32, 102, 111, 114, 32, 115, 111, 99, 107, 101, 116]

/-- The command-specific second half of `s_binding_input`, entered once a
peering has been resolved: refresh the expiry, then OHAI answers OHAI-OK and
raises; OHAI-OK focuses the peering onto the sender address when that
differs from the echoed body (`assert (rc == 0)` on the key rename becomes
`fault`) and raises; HUGZ answers HUGZ-OK; NOM decodes the payload, applies
the routing rule's sequence handling — a duplicate under REQUEST is
discarded, a duplicate under REPLY, ROUTER and DEALER (the source condition
is the logical `flags && VTX_UDP_RESEND`, so any nonzero flags nibble
qualifies) re-sends the stored reply, whose absence is `assert
(peering->reply)` — and passes the surviving message to the application
when the vocket accepts input (`assert (colon)` on a sender address without
a colon); ROTFL is logged and HUGZ-OK ignored. -/
def s_binding_command (v : Vocket) (id : Nat) (flags command recvseq : Nat)
    (body : List Nat) (address : List Nat) (now : Nat) : SBResult :=
  let v := updatePeering v id (fun q => { q with expiry := now + VTX_UDP_TIMEOUT })
  if command = VTX_UDP_OHAI then
    let v := peering_send v id VTX_UDP_OHAI_OK body 0 now
    .done (peering_raise v id now)
  else if command = VTX_UDP_OHAI_OK then
    let bodyStr := body.takeWhile (fun b => b ≠ 0)
    if address ≠ bodyStr then
      match zhash_rename v.peering_hash bodyStr address with
      | none => .fault
      | some h =>
        let v := { v with peering_hash := h }
        let v := updatePeering v id (fun q => { q with addr := address, address := address })
        .done (peering_raise v id now)
    else .done (peering_raise v id now)
  else if command = VTX_UDP_HUGZ then
    .done (peering_send v id VTX_UDP_HUGZ_OK [] 0 now)
  else if command = VTX_UDP_NOM then
    match zmsg_decode body with
    | none => .done v
    | some msg0 =>
      let v := { v with incoming := v.incoming + 1 }
      match getPeering v id with
      | none => .fault
      | some p =>
        let routed : Option (Vocket × Option Zmsg) :=
          if v.routing = VTX_ROUTING_REQUEST then
            if recvseq = p.recvseq then
              some ({ v with dropped := v.dropped + 1 }, none)
            else
              some (updatePeering v id (fun q =>
                { q with recvseq := recvseq, request := none }), some msg0)
          else if v.routing = VTX_ROUTING_REPLY then
            if flags ≠ 0 ∧ VTX_UDP_RESEND ≠ 0 ∧ recvseq = p.recvseq then
              match p.reply with
              | none => none
              | some r =>
                let v := peering_send_msg v id r 0 now
                some ({ v with dropped := v.dropped + 1 }, none)
            else
              some ({ updatePeering v id (fun q => { q with recvseq := recvseq })
                        with reply_to := some id }, some msg0)
          else if v.routing = VTX_ROUTING_ROUTER then
            if flags ≠ 0 ∧ VTX_UDP_RESEND ≠ 0 ∧ recvseq = p.recvseq then
              match p.reply with
              | none => none
              | some r =>
                let v := peering_send_msg v id r 0 now
                some ({ v with dropped := v.dropped + 1 }, none)
            else
              some (updatePeering v id (fun q => { q with recvseq := recvseq }),
                some ((VTX_UDP_SCHEME ++ [58, 47, 47] ++ address) :: msg0))
          else if v.routing = VTX_ROUTING_DEALER then
            if flags ≠ 0 ∧ VTX_UDP_RESEND ≠ 0 ∧ recvseq = p.recvseq then
              match p.reply with
              | none => none
              | some r =>
                let v := peering_send_msg v id r 0 now
                some ({ v with dropped := v.dropped + 1 }, none)
            else
              some (updatePeering v id (fun q => { q with recvseq := recvseq }), some msg0)
          else some (v, some msg0)
        match routed with
        | none => .fault
        | some (v, msgOpt) =>
          if v.nomnom then
            match msgOpt with
            | some m =>
              if colonByte ∈ address then
                let v := { v with sender := hostOf address }
                .done { v with piped := v.piped ++ [m], inpiped := v.inpiped + 1 }
              else .fault
            | none => .done v
          else .done v
  else .done v

/-- The reactor handler `s_binding_input`: parse the two-byte NOM-1 header of
an incoming datagram and drop garbage versions and commands; resolve the
peering by sender address, by the echoed body for an OHAI-OK broadcast
reply, or by creating an incoming peering for an OHAI (answered with ROTFL
and destroyed again when the vocket is over its peering limit); unknown
peers are dropped; then do the command-specific work.  `sender` is the
datagram's source socket address, on which `s_sin_addr_to_str` is the
identity.  The `randof (5) == 9` simulated-breakage branch is dead code
(`randof` yields 0 to 4) and the `recvfrom` error path is outside the
model. -/
def s_binding_input (v : Vocket) (buffer : List Nat) (sender : List Nat)
    (now : Nat) : SBResult :=
  let version := bufGet buffer 0 / 16
  let flags := bufGet buffer 0 % 16
  let command := bufGet buffer 1 / 16
  let recvseq := bufGet buffer 1 % 16
  let body := buffer.drop VTX_UDP_HEADER
  if version ≠ VTX_UDP_VERSION then .done v
  else if VTX_UDP_CMDLIMIT ≤ command then .done v
  else
    let address := sender
    match zhash_lookup v.peering_hash address with
    | some id => s_binding_command v id flags command recvseq body address now
    | none =>
      if command = VTX_UDP_OHAI_OK then
        match zhash_lookup v.peering_hash (body.takeWhile (fun b => b ≠ 0)) with
        | some id => s_binding_command v id flags command recvseq body address now
        | none => .done v
      else if command = VTX_UDP_OHAI then
        let required := peering_require v address false now
        let v := required.1
        let id := required.2
        if v.max_peerings < v.peerings then
          let v := peering_send v id VTX_UDP_ROTFL maxPeeringsReason 0 now
          .done (peering_destroy v id)
        else s_binding_command v id flags command recvseq body address now
      else .done v

/-- Operating-system state for datagram sockets: the textual local addresses
already bound. -/
abbrev OsState := List (List Nat)

/-- The function `binding_require`: look the full `host:port` address up in
`binding_hash` and return the existing binding if present.  Otherwise
create one: the port split truncates the caller's string at the colon — so
the hash key becomes the bare host — after the binding took its own copy of
the full address; `bind` fails with address-in-use when the same local
address is already bound, in which case the binding is logged and freed and
nothing is stored (the C function still returns the non-null freed
pointer).  The invalid-address exception does not arise for the numeric and
wildcard addresses the claims use. -/
def binding_require (v : Vocket) (os : OsState) (address : List Nat) :
    Vocket × OsState :=
  match zhash_lookup v.binding_hash address with
  | some _ => (v, os)
  | none =>
    let key := hostOf address
    if address ∈ os then (v, os)
    else ({ v with binding_hash := zhash_insert v.binding_hash key ⟨address⟩ },
          os ++ [address])

/-- The control commands of `s_driver_control` the claims mention. -/
inductive Cmd where
  | BIND
  | CONNECT
deriving Repr, DecidableEq

/-- The BIND and CONNECT arms of the control handler `s_driver_control` for a
resolved vocket (the remaining commands touch only driver bookkeeping the
claims do not mention).  The reply "0" ([48]) means success, "1" ([49])
error.  BIND always replies "0": `binding_require` never returns NULL, even
its exception path returns the freed non-null pointer.  CONNECT refuses
when the vocket is at its peering limit — this test comes before the
idempotent lookup inside `peering_require`. -/
def s_driver_control (v : Vocket) (os : OsState) (cmd : Cmd) (address : List Nat)
    (now : Nat) : List Nat × Vocket × OsState :=
  match cmd with
  | .BIND =>
    let (v, os) := binding_require v os address
    ([48], v, os)
  | .CONNECT =>
    if v.peerings < v.max_peerings then
      let (v, _) := peering_require v address true now
      ([48], v, os)
    else ([49], v, os)

/-! ## Registry front (`vtx.c`) -/

/-- The structure `vtx_socket_t`: the 0MQ socket it fronts, the emulated
socket type, and the driver the socket is fixed to once bound or
connected. -/
structure VtxSocketT where
  socket : Nat
  type : Nat
  driver : Option Nat
deriving Repr, DecidableEq, Inhabited

/-- The structure `struct _vtx_t` plus the observable channel state.
`s_socket_key` formats one key per socket handle, so the `sockets` table is
keyed by the handle itself.  The ghost fields record the control messages
sent to drivers (`driverSends`) and the sockets passed to
`zsocket_destroy` (`destroyed`). -/
structure VtxT where
  drivers : List (List Nat × Nat)
  sockets : List (Nat × VtxSocketT)
  driverSends : List (Nat × Zmsg)
  destroyed : List Nat
deriving Repr, DecidableEq, Inhabited

/-- czmq `zsocket_destroy`, recorded in the ghost log. -/
def zsocket_destroy (s : VtxT) (socket : Nat) : VtxT :=
  { s with destroyed := s.destroyed ++ [socket] }

/-- The decimal ASCII rendering `"%d"` of a number. -/
def decimalAscii (n : Nat) : List Nat := (Nat.toDigits 10 n).map Char.toNat

/-- The helper `s_socket_key`: the formatted key "vtx-%p" of a socket. -/
def s_socket_key (socket : Nat) : List Nat :=
  [118, 116, 120, 45] ++ decimalAscii socket

/-- Split an endpoint at the first occurrence of "://" into protocol and
address, as `s_driver_call` does with `strstr`. -/
def splitScheme : List Nat → Option (List Nat × List Nat)
  | [] => none
  | 58 :: 47 :: 47 :: rest => some ([], rest)
  | b :: rest =>
    match splitScheme rest with
    | some (sch, addr) => some (b :: sch, addr)
    | none => none

/-- Result of `s_driver_call`: `crash` models the null dereference of
`vtx_socket->driver->commands` when the socket has no driver yet. -/
inductive CallResult where
  | crash
  | ret (rc : Int) (s : VtxT)
deriving Repr, DecidableEq

/-- The command string "CLOSE". -/
def cmdCLOSE : List Nat := [67, 76, 79, 83, 69]

/-- The command string "BIND". -/
def cmdBIND : List Nat := [66, 73, 78, 68]

/-- The command string "CONNECT". -/
def cmdCONNECT : List Nat := [67, 79, 78, 78, 69, 67, 84]

/-- The helper `s_driver_call`: look the socket's entry up (-1, EINVAL, when
absent); when an endpoint is given, split it at "://" (-1, EINVAL, when
malformed), look the driver up by protocol (-1, ENOPROTOOPT, when unknown),
refuse a second driver on one socket (-1, ENOTSUP) and fix the socket's
driver; send the four-frame request to the driver's command pipe and return
the driver's numeric reply (`driverReply`; 0 when `zstr_recv` was
interrupted and returned NULL). -/
def s_driver_call (s : VtxT) (socket : Nat) (command : List Nat)
    (endpoint : Option (List Nat)) (driverReply : Option Int) : CallResult :=
  match zhash_lookup s.sockets socket with
  | none => .ret (-1) s
  | some vs =>
    let resolved : Option (VtxT × VtxSocketT × List Nat) :=
      match endpoint with
      | none => some (s, vs, [])
      | some ep =>
        match splitScheme ep with
        | none => none
        | some (protocol, address) =>
          match zhash_lookup s.drivers protocol with
          | none => none
          | some d =>
            if vs.driver.isSome ∧ vs.driver ≠ some d then none
            else
              let vs := { vs with driver := some d }
              let newSockets := s.sockets.map
                (fun e => if e.1 = socket then (e.1, vs) else e)
              some ({ s with sockets := newSockets }, vs, address)
    match resolved with
    | none => .ret (-1) s
    | some (s, vs, address) =>
      match vs.driver with
      | none => .crash
      | some d =>
        let request : Zmsg :=
          [command, decimalAscii vs.type, s_socket_key socket, address]
        let s := { s with driverSends := s.driverSends ++ [(d, request)] }
        .ret (driverReply.getD 0) s

/-- The function `vtx_bind`. -/
def vtx_bind (s : VtxT) (socket : Nat) (endpoint : List Nat)
    (driverReply : Option Int) : CallResult :=
  s_driver_call s socket cmdBIND (some endpoint) driverReply

/-- The function `vtx_connect`. -/
def vtx_connect (s : VtxT) (socket : Nat) (endpoint : List Nat)
    (driverReply : Option Int) : CallResult :=
  s_driver_call s socket cmdCONNECT (some endpoint) driverReply

/-- The function `vtx_close`: it returns the result of the CLOSE driver call;
the `zsocket_destroy (self->ctx, socket)` statement of the source sits after
the `return` statement and is unreachable, so the function never destroys
the socket and never touches the sockets table. -/
def vtx_close (s : VtxT) (socket : Nat) (driverReply : Option Int) : CallResult :=
  s_driver_call s socket cmdCLOSE none driverReply

/-! ## States and extraction helpers used by the claim theorems -/

/-- The payload and more flag of a successful `vtx_codec_msg_get`. -/
def msgGetPayload : GetResult → Option (List Nat × Bool)
  | .ok p m _ => some (p, m)
  | _ => none

/-- The codec state after a successful `vtx_codec_msg_get` (default `d`). -/
def msgGetNext (d : Codec) : GetResult → Codec
  | .ok _ _ c => c
  | _ => d

/-- Whether a `vtx_codec_msg_get` hit a failing assertion. -/
def getIsFault : GetResult → Bool
  | .fault => true
  | _ => false

/-- Whether a driver handler completed without a failing assertion. -/
def sbIsDone : SBResult → Bool
  | .done _ => true
  | .fault => false

/-- The vocket state after a driver handler completed (default `d`). -/
def sbState (d : Vocket) : SBResult → Vocket
  | .done v => v
  | .fault => d

/-- C1/C3 scenario: a fresh codec with 3 batch entries, data buffer starting
at offset 0 (one of the positions the randomised constructor can pick). -/
def c1_codec0 : Codec := vtx_codec_new 3 0

/-- C1 scenario: a frame of 30 bytes — at `ZMQ_MAX_VSM_SIZE`, so stored by
reference. -/
def c1_large : List Nat := List.replicate 30 7

/-- C1 scenario: a one-byte frame, stored by copy. -/
def c1_small : List Nat := [9]

/-- C1 scenario: the codec after storing the large frame. -/
def c1_after1 : Codec := (vtx_codec_msg_put c1_codec0 c1_large false).getD c1_codec0

/-- C1 scenario: the codec after storing the large then the small frame. -/
def c1_after2 : Codec := (vtx_codec_msg_put c1_after1 c1_small false).getD c1_after1

/-- C3 scenario: the codec after `vtx_codec_bin_put` of the two bytes 00 00 —
a frame header whose length octet is zero. -/
def c3_after : Codec := (vtx_codec_bin_put c1_codec0 [0, 0]).getD c1_codec0

/-- C2 scenario: a fresh REP vocket. -/
def c2_rep0 : Vocket := (vocket_new ZMQ_REP).getD default

/-- C2 scenario: the remote peer's address "a:1". -/
def c2_addr : List Nat := [97, 58, 49]

/-- C2 scenario: the REP vocket after an OHAI datagram from the peer
established and raised an incoming peering (identifier 0). -/
def c2_established : Vocket :=
  sbState c2_rep0 (s_binding_input c2_rep0 [16, 16] c2_addr 0)

/-- C4 scenario: a fresh REP vocket. -/
def c4_rep0 : Vocket := (vocket_new ZMQ_REP).getD default

/-- C4 scenario: the remote peer's address "a:1". -/
def c4_addr : List Nat := [97, 58, 49]

/-- C4 scenario: the REP vocket after an OHAI from the peer established the
peering. -/
def c4_est : Vocket := sbState c4_rep0 (s_binding_input c4_rep0 [16, 16] c4_addr 0)

/-- C4 scenario: after a first request NOM (flags 0, sequence 1) was
delivered. -/
def c4_got : Vocket :=
  sbState c4_est (s_binding_input c4_est ([16, 81] ++ zmsg_encode [[72, 105]]) c4_addr 1)

/-- C4 scenario: after the application sent the reply, which is stored as the
peering's last reply. -/
def c4_replied : Vocket := sbState c4_got (s_vocket_input c4_got [[79, 75]] 2)

/-- C5 scenario: the remote address "b:2". -/
def c5_addr : List Nat := [98, 58, 50]

/-- C5 scenario: a fresh REQ vocket. -/
def c5_req0 : Vocket := (vocket_new ZMQ_REQ).getD default

/-- C5 scenario: the REQ vocket after a CONNECT to "b:2" created the outgoing
peering (identifier 0) and sent the first OHAI. -/
def c5_req1 : Vocket := (s_driver_control c5_req0 [] Cmd.CONNECT c5_addr 0).2.1

/-- C5 scenario: the REQ vocket after the peer's OHAI-OK raised the peering. -/
def c5_live : Vocket :=
  sbState c5_req1 (s_binding_input c5_req1 ([16, 32] ++ c5_addr) c5_addr 1)

/-- The number of peerings of the vocket whose textual address is `a`. -/
def peeringsFor (v : Vocket) (a : List Nat) : Nat :=
  (v.store.filter (fun e => decide (e.2.address = a))).length

/-- The number of bindings of the vocket whose textual address is `a`. -/
def bindingsFor (v : Vocket) (a : List Nat) : Nat :=
  (v.binding_hash.filter (fun kv => decide (kv.2.address = a))).length

/-- C6 scenario: the remote address "c:3". -/
def c6_addr : List Nat := [99, 58, 51]

/-- C6 scenario: a fresh PAIR vocket (max peerings 1). -/
def c6_pair0 : Vocket := (vocket_new ZMQ_PAIR).getD default

/-- C6 scenario: the PAIR vocket, operating-system state and reply after the
first connect to "c:3". -/
def c6_pair1 : List Nat × Vocket × OsState :=
  s_driver_control c6_pair0 [] Cmd.CONNECT c6_addr 0

/-- C6 witness scenario: a fresh REQ vocket (max peerings 512). -/
def c6_req0 : Vocket := (vocket_new ZMQ_REQ).getD default

/-- The peering-level operations of the driver: create (`peering_require`),
destroy, raise, lower, the CONNECT control command, and an inbound OHAI
datagram from a remote (version 1, flags 0, sequence 0, empty body). -/
inductive VOp where
  | require (address : List Nat) (outg : Bool) (now : Nat)
  | destroy (id : Nat)
  | raise (id : Nat) (now : Nat)
  | lower (id : Nat)
  | connect (address : List Nat) (now : Nat)
  | inboundOhai (sender : List Nat) (now : Nat)
deriving Repr, DecidableEq

/-- Apply one driver operation to a vocket.  A faulting handler leaves the
state as it was (an inbound OHAI never faults). -/
def vstep (v : Vocket) : VOp → Vocket
  | .require a o n => (peering_require v a o n).1
  | .destroy id => peering_destroy v id
  | .raise id n => peering_raise v id n
  | .lower id => peering_lower v id
  | .connect a n => (s_driver_control v [] Cmd.CONNECT a n).2.1
  | .inboundOhai s n =>
      match s_binding_input v [16, 16] s n with
      | .done v2 => v2
      | .fault => v

/-- Run a sequence of driver operations. -/
def vrun (v : Vocket) : List VOp → Vocket
  | [] => v
  | op :: ops => vrun (vstep v op) ops

/-- The peering bookkeeping invariant of a vocket: arena identifiers are
duplicate-free and below the allocation counter, `peering_list` mirrors the
arena, and `live_peerings` is duplicate-free and holds exactly the alive
peerings, so its length is the number of alive peerings. -/
def peerings_wf (v : Vocket) : Prop :=
  (v.store.map Prod.fst).Nodup ∧
  v.peering_list = v.store.map Prod.fst ∧
  v.live_peerings.Nodup ∧
  (∀ id, id ∈ v.live_peerings →
    ∃ p, zhash_lookup v.store id = some p ∧ p.alive = true) ∧
  (∀ id p, zhash_lookup v.store id = some p → p.alive = true →
    id ∈ v.live_peerings) ∧
  (∀ id, id ∈ v.store.map Prod.fst → id < v.nextId) ∧
  v.live_peerings.length = (v.store.filter (fun e => e.2.alive)).length

/-- C7 scenario: the fresh REQ vocket. -/
def c7_req0 : Vocket := (vocket_new ZMQ_REQ).getD default


def require_peering (address : List Nat) (outg : Bool) : Peering :=
  { alive := false, outgoing := outg, address := address, expiry := 0,
    broadcast := outg && (address.headD 0 == starByte), silent := 0,
    addr := s_str_to_sin_addr address
      (if outg then s_broadcast_addr else inaddr_any),
    bcast := if outg && (address.headD 0 == starByte) then
        s_str_to_sin_addr address
          (if outg then s_broadcast_addr else inaddr_any)
      else [],
    request := none, reply := none, sendseq := 0, recvseq := 0 }

/-- C8 scenario: the wildcard connect address for a given port text. -/
def c8_wild (port : List Nat) : List Nat := 42 :: 58 :: port

/-- C8 scenario: the resolved broadcast address for a given port text. -/
def c8_bcast (port : List Nat) : List Nat := 66 :: 67 :: 58 :: port

/-- The operations the broadcast-focus claim quantifies over: an OHAI-OK
datagram from a remote (a well-formed sender address: has a colon, no NUL
byte, not the wildcard host and not the driver's own broadcast host) whose
body echoes the address of our last OHAI — the peering's current stored
address — and a monitor tick of the single peering. -/
inductive BOp where
  | recvOhaiOk (sender : List Nat) (now : Nat)
  | monitor (now : Nat)
deriving Repr, DecidableEq

/-- One broadcast-scenario step (`fault` propagates a driver abort). -/
def bstep (v : Vocket) : BOp → SBResult
  | .recvOhaiOk sender now =>
      if 58 ∈ sender ∧ 0 ∉ sender ∧ sender.headD 0 ≠ 42 ∧
          sender.headD 0 ≠ 66 then
        match getPeering v 0 with
        | some p => s_binding_input v ([16, 32] ++ p.address) sender now
        | none => SBResult.done v
      else SBResult.done v
  | .monitor now => s_peering_monitor v 0 now

/-- Run a sequence of broadcast-scenario steps. -/
def brun (v : Vocket) : List BOp → SBResult
  | [] => SBResult.done v
  | op :: ops =>
      match bstep v op with
      | SBResult.done w => brun w ops
      | SBResult.fault => SBResult.fault

/-- The broadcast-focus invariant: the vocket holds the single peering 0,
keyed in the peering table under its stored address; the peering is a
broadcast outgoing peering whose resolved broadcast address is the textual
broadcast address; while alive it is focused (key = stored address = send
address = some well-formed remote address), while dead the key is the
original wildcard address or the broadcast address, with the send address
the broadcast address. -/
def BInv (port : List Nat) (w : Vocket) : Prop :=
  ∃ p, w.store = [(0, p)] ∧
    w.peering_hash = [(p.address, 0)] ∧
    p.broadcast = true ∧ p.outgoing = true ∧ p.bcast = c8_bcast port ∧
    (p.alive = true → p.addr = p.address ∧ 58 ∈ p.address ∧
      0 ∉ p.address ∧ p.address.headD 0 ≠ 42 ∧ p.address.headD 0 ≠ 66) ∧
    (p.alive = false →
      (p.address = c8_wild port ∨ p.address = c8_bcast port) ∧
      p.addr = c8_bcast port)


/-- C8 scenario: the REQ vocket right after a CONNECT to the wildcard
address, holding the single broadcast peering 0. -/
def c8_vocket (port : List Nat) : Vocket :=
  (s_driver_control ((vocket_new ZMQ_REQ).getD default) [] Cmd.CONNECT
    (c8_wild port) 0).2.1

/-! ## Theorems -/

/-- Looking up the updated identifier after `updatePeering`. -/
theorem getPeering_update_self (v : Vocket) (id : Nat) (f : Peering → Peering) :
    getPeering (updatePeering v id f) id = (getPeering v id).map f := by
  show zhash_lookup (v.store.map fun e => if e.1 = id then (e.1, f e.2) else e) id =
    (zhash_lookup v.store id).map f
  induction v.store with
  | nil => simp [zhash_lookup]
  | cons e t ih =>
    simp only [List.map_cons, zhash_lookup]
    by_cases he : e.1 = id
    · rw [if_pos he]
      simp [he, ih]
    · rw [if_neg he]
      simp [he, ih]

/-- Looking up a different identifier after `updatePeering`. -/
theorem getPeering_update_other (v : Vocket) (id j : Nat) (f : Peering → Peering)
    (h : j ≠ id) :
    getPeering (updatePeering v id f) j = getPeering v j := by
  show zhash_lookup (v.store.map fun e => if e.1 = id then (e.1, f e.2) else e) j =
    zhash_lookup v.store j
  induction v.store with
  | nil => simp [zhash_lookup]
  | cons e t ih =>
    simp only [List.map_cons, zhash_lookup]
    by_cases he : e.1 = id
    · have hej : e.1 ≠ j := by rw [he]; exact fun hh => h hh.symm
      rw [if_pos he]
      simp [hej, ih]
    · rw [if_neg he]
      by_cases hej : e.1 = j
      · simp [hej]
      · simp [hej, ih]

/-! Projections of `updatePeering`: only the peering arena changes. -/

@[simp] theorem updatePeering_binding_hash (v : Vocket) (id : Nat) (f : Peering → Peering) :
    (updatePeering v id f).binding_hash = v.binding_hash := rfl

@[simp] theorem updatePeering_peering_hash (v : Vocket) (id : Nat) (f : Peering → Peering) :
    (updatePeering v id f).peering_hash = v.peering_hash := rfl

@[simp] theorem updatePeering_peering_list (v : Vocket) (id : Nat) (f : Peering → Peering) :
    (updatePeering v id f).peering_list = v.peering_list := rfl

@[simp] theorem updatePeering_live_peerings (v : Vocket) (id : Nat) (f : Peering → Peering) :
    (updatePeering v id f).live_peerings = v.live_peerings := rfl

@[simp] theorem updatePeering_reply_to (v : Vocket) (id : Nat) (f : Peering → Peering) :
    (updatePeering v id f).reply_to = v.reply_to := rfl

@[simp] theorem updatePeering_peerings (v : Vocket) (id : Nat) (f : Peering → Peering) :
    (updatePeering v id f).peerings = v.peerings := rfl

@[simp] theorem updatePeering_sender (v : Vocket) (id : Nat) (f : Peering → Peering) :
    (updatePeering v id f).sender = v.sender := rfl

@[simp] theorem updatePeering_routing (v : Vocket) (id : Nat) (f : Peering → Peering) :
    (updatePeering v id f).routing = v.routing := rfl

@[simp] theorem updatePeering_nomnom (v : Vocket) (id : Nat) (f : Peering → Peering) :
    (updatePeering v id f).nomnom = v.nomnom := rfl

@[simp] theorem updatePeering_min_peerings (v : Vocket) (id : Nat) (f : Peering → Peering) :
    (updatePeering v id f).min_peerings = v.min_peerings := rfl

@[simp] theorem updatePeering_max_peerings (v : Vocket) (id : Nat) (f : Peering → Peering) :
    (updatePeering v id f).max_peerings = v.max_peerings := rfl

@[simp] theorem updatePeering_nextId (v : Vocket) (id : Nat) (f : Peering → Peering) :
    (updatePeering v id f).nextId = v.nextId := rfl

@[simp] theorem updatePeering_outgoing (v : Vocket) (id : Nat) (f : Peering → Peering) :
    (updatePeering v id f).outgoing = v.outgoing := rfl

@[simp] theorem updatePeering_incoming (v : Vocket) (id : Nat) (f : Peering → Peering) :
    (updatePeering v id f).incoming = v.incoming := rfl

@[simp] theorem updatePeering_outpiped (v : Vocket) (id : Nat) (f : Peering → Peering) :
    (updatePeering v id f).outpiped = v.outpiped := rfl

@[simp] theorem updatePeering_inpiped (v : Vocket) (id : Nat) (f : Peering → Peering) :
    (updatePeering v id f).inpiped = v.inpiped := rfl

@[simp] theorem updatePeering_dropped (v : Vocket) (id : Nat) (f : Peering → Peering) :
    (updatePeering v id f).dropped = v.dropped := rfl

@[simp] theorem updatePeering_sent (v : Vocket) (id : Nat) (f : Peering → Peering) :
    (updatePeering v id f).sent = v.sent := rfl

@[simp] theorem updatePeering_piped (v : Vocket) (id : Nat) (f : Peering → Peering) :
    (updatePeering v id f).piped = v.piped := rfl

/-- The arena lookup through the entry-wise map `updatePeering` performs. -/
theorem zhash_lookup_update_map (l : List (Nat × Peering)) (id j : Nat)
    (f : Peering → Peering) :
    zhash_lookup (List.map (fun e => if e.1 = id then (e.1, f e.2) else e) l) j =
      if j = id then (zhash_lookup l id).map f else zhash_lookup l j := by
  induction l with
  | nil => simp [zhash_lookup]
  | cons e t ih =>
    simp only [List.map_cons, zhash_lookup]
    by_cases he : e.1 = id
    · rw [if_pos he]
      by_cases hj : j = id
      · subst hj; rw [he]; simp
      · have hne : e.1 ≠ j := by rw [he]; exact fun hh => hj hh.symm
        simp [hne, ih, hj]
    · rw [if_neg he]
      by_cases hej : e.1 = j
      · have hji : ¬ j = id := fun hji => he (by rw [hej, hji])
        simp [hej, hji]
      · simp [hej, he, ih]

/-- Arena lookup below `updatePeering`, stated on the `store` projection so
that rewriting can keep `updatePeering` folded. -/
@[simp] theorem updatePeering_store_lookup (v : Vocket) (id j : Nat)
    (f : Peering → Peering) :
    zhash_lookup (updatePeering v id f).store j =
      if j = id then (zhash_lookup v.store id).map f else zhash_lookup v.store j := by
  show zhash_lookup (List.map (fun e => if e.1 = id then (e.1, f e.2) else e) v.store) j = _
  exact zhash_lookup_update_map v.store id j f

/-- `s_binding_input` parses an in-protocol NOM datagram (version 1, any flags
nibble, any sequence nibble) and, when the sender is a known peering,
dispatches to the command handler. -/
theorem s_binding_input_nom (v : Vocket) (id : Nat) (flags seq now : Nat)
    (body sender : List Nat)
    (hflags : flags < 16) (hseq : seq < 16)
    (hlook : zhash_lookup v.peering_hash sender = some id) :
    s_binding_input v ((16 + flags) :: (80 + seq) :: body) sender now =
      s_binding_command v id flags 5 seq body sender now := by
  have hver : (16 + flags) / 16 = 1 := by omega
  have hfl : (16 + flags) % 16 = flags := by omega
  have hcmd : (80 + seq) / 16 = 5 := by omega
  have hsq : (80 + seq) % 16 = seq := by omega
  simp only [s_binding_input, bufGet, List.getD_cons_zero, List.getD_cons_succ,
    hver, hfl, hcmd, hsq, VTX_UDP_VERSION, VTX_UDP_CMDLIMIT, VTX_UDP_HEADER,
    List.drop_succ_cons, List.drop_zero, hlook]
  norm_num

/-- The duplicate branch of the REP NOM handler: with a stored last reply,
any nonzero flags nibble together with an unchanged sequence makes the
driver re-send the stored reply, count the message dropped, and not touch
the application pipe; the peering only gets fresh expiry and silence
deadlines. -/
theorem s_binding_command_rep_dup (v : Vocket) (id : Nat) (p : Peering)
    (flags seq now : Nat) (body : List Nat) (m r : Zmsg) (sender : List Nat)
    (hroute : v.routing = VTX_ROUTING_REPLY)
    (hp : getPeering v id = some p)
    (hreply : p.reply = some r)
    (hbody : zmsg_decode body = some m)
    (hfit : (zmsg_encode r).length + VTX_UDP_HEADER ≤ VTX_UDP_MSGMAX)
    (hf : flags ≠ 0) (hs : seq = p.recvseq) :
    sbIsDone (s_binding_command v id flags 5 seq body sender now) = true ∧
    (sbState v (s_binding_command v id flags 5 seq body sender now)).piped = v.piped ∧
    (sbState v (s_binding_command v id flags 5 seq body sender now)).sent =
      v.sent ++ [(p.addr, 16 :: (80 + p.sendseq % 16) :: zmsg_encode r)] ∧
    (sbState v (s_binding_command v id flags 5 seq body sender now)).dropped =
      v.dropped + 1 ∧
    getPeering (sbState v (s_binding_command v id flags 5 seq body sender now)) id =
      some { p with expiry := now + VTX_UDP_TIMEOUT,
                    silent := now + VTX_UDP_TIMEOUT / 3 } := by
  simp only [getPeering] at hp
  have hfit2 : (zmsg_encode r).length ≤ 510 := by
    simp only [VTX_UDP_HEADER, VTX_UDP_MSGMAX] at hfit; omega
  simp only [s_binding_command, VTX_UDP_OHAI, VTX_UDP_OHAI_OK, VTX_UDP_HUGZ,
    VTX_UDP_NOM, VTX_UDP_RESEND, hbody]
  norm_num
  simp [getPeering, hp, hroute, hfit2, hs, hf, hreply,
    VTX_ROUTING_REQUEST, VTX_ROUTING_REPLY,
    peering_send_msg, peering_send, sbState, sbIsDone,
    VTX_UDP_VERSION, VTX_UDP_NOM, VTX_UDP_HEADER, VTX_UDP_MSGMAX]

/-- The delivery branch of the REP NOM handler: a zero flags nibble or a new
sequence delivers the decoded message to the application, records the
peering as the reply-to destination, sends nothing, and updates the
peering's `recvseq`. -/
theorem s_binding_command_rep_fresh (v : Vocket) (id : Nat) (p : Peering)
    (flags seq now : Nat) (body : List Nat) (m : Zmsg) (sender : List Nat)
    (hroute : v.routing = VTX_ROUTING_REPLY)
    (hnom : v.nomnom = true)
    (hp : getPeering v id = some p)
    (hbody : zmsg_decode body = some m)
    (hcolon : colonByte ∈ sender)
    (hcase : flags = 0 ∨ seq ≠ p.recvseq) :
    sbIsDone (s_binding_command v id flags 5 seq body sender now) = true ∧
    (sbState v (s_binding_command v id flags 5 seq body sender now)).piped =
      v.piped ++ [m] ∧
    (sbState v (s_binding_command v id flags 5 seq body sender now)).reply_to =
      some id ∧
    (sbState v (s_binding_command v id flags 5 seq body sender now)).sent = v.sent ∧
    getPeering (sbState v (s_binding_command v id flags 5 seq body sender now)) id =
      some { p with recvseq := seq, expiry := now + VTX_UDP_TIMEOUT } := by
  simp only [getPeering] at hp
  simp only [s_binding_command, VTX_UDP_OHAI, VTX_UDP_OHAI_OK, VTX_UDP_HUGZ,
    VTX_UDP_NOM, VTX_UDP_RESEND, hbody]
  norm_num
  cases hcase with
  | inl hf0 =>
    simp [getPeering, hp, hroute, hf0, hnom, hcolon,
      VTX_ROUTING_REQUEST, VTX_ROUTING_REPLY, sbState, sbIsDone]
  | inr hsne =>
    simp [getPeering, hp, hroute, hsne, hnom, hcolon,
      VTX_ROUTING_REQUEST, VTX_ROUTING_REPLY, sbState, sbIsDone]

/-- C4, counterexample to the claim as stated: the claim says a NOM without
the RESEND flag (bit 0 of the flags nibble clear) is delivered to the
application.  On the REP vocket below — peering established, a request with
sequence 1 delivered, the reply stored — a NOM with flags nibble 2 (RESEND
bit clear) and the same sequence 1 is not delivered: the source tests the
logical conjunction `flags && VTX_UDP_RESEND`, so any nonzero flags nibble
triggers the retransmit path, which re-sends the stored reply and counts
the message dropped. -/
theorem C4_resend_flag_counterexample :
    (getPeering c4_replied 0).map Peering.recvseq = some 1 ∧
    (getPeering c4_replied 0).map Peering.reply = some (some [[79, 75]]) ∧
    sbIsDone (s_binding_input c4_replied ([18, 81] ++ zmsg_encode [[88]]) c4_addr 3)
      = true ∧
    (sbState c4_replied
        (s_binding_input c4_replied ([18, 81] ++ zmsg_encode [[88]]) c4_addr 3)).piped
      = c4_replied.piped ∧
    (sbState c4_replied
        (s_binding_input c4_replied ([18, 81] ++ zmsg_encode [[88]]) c4_addr 3)).sent
      = c4_replied.sent ++ [(c4_addr, 16 :: 81 :: zmsg_encode [[79, 75]])] ∧
    (sbState c4_replied
        (s_binding_input c4_replied ([18, 81] ++ zmsg_encode [[88]]) c4_addr 3)).dropped
      = c4_replied.dropped + 1 := by
  decide

/-- C4 (amended: the retransmit condition is any nonzero flags nibble, not
the RESEND bit): on a REP vocket, a NOM datagram from a known peering with
a nonzero flags nibble and a sequence equal to the peering's recorded
`recvseq` makes the driver re-send that peering's stored last reply and not
deliver the message to the application; a NOM with a zero flags nibble or a
different sequence is delivered to the application, records the peering as
the reply-to destination and updates `recvseq`. -/
theorem C4_rep_resend_dedup (v : Vocket) (id : Nat) (p : Peering)
    (flags seq now : Nat) (body : List Nat) (m r : Zmsg) (sender : List Nat)
    (hroute : v.routing = VTX_ROUTING_REPLY)
    (hnom : v.nomnom = true)
    (hlook : zhash_lookup v.peering_hash sender = some id)
    (hp : getPeering v id = some p)
    (hreply : p.reply = some r)
    (hflags : flags < 16) (hseq : seq < 16)
    (hbody : zmsg_decode body = some m)
    (hcolon : colonByte ∈ sender)
    (hfit : (zmsg_encode r).length + VTX_UDP_HEADER ≤ VTX_UDP_MSGMAX) :
    (flags ≠ 0 ∧ seq = p.recvseq →
      sbIsDone (s_binding_input v ((16 + flags) :: (80 + seq) :: body) sender now)
        = true ∧
      (sbState v (s_binding_input v ((16 + flags) :: (80 + seq) :: body) sender now)).piped
        = v.piped ∧
      (sbState v (s_binding_input v ((16 + flags) :: (80 + seq) :: body) sender now)).sent
        = v.sent ++ [(p.addr, 16 :: (80 + p.sendseq % 16) :: zmsg_encode r)] ∧
      (sbState v (s_binding_input v ((16 + flags) :: (80 + seq) :: body) sender now)).dropped
        = v.dropped + 1) ∧
    (flags = 0 ∨ seq ≠ p.recvseq →
      sbIsDone (s_binding_input v ((16 + flags) :: (80 + seq) :: body) sender now)
        = true ∧
      (sbState v (s_binding_input v ((16 + flags) :: (80 + seq) :: body) sender now)).piped
        = v.piped ++ [m] ∧
      (sbState v (s_binding_input v ((16 + flags) :: (80 + seq) :: body) sender now)).reply_to
        = some id ∧
      (sbState v (s_binding_input v ((16 + flags) :: (80 + seq) :: body) sender now)).sent
        = v.sent ∧
      getPeering (sbState v (s_binding_input v ((16 + flags) :: (80 + seq) :: body) sender now)) id
        = some { p with recvseq := seq, expiry := now + VTX_UDP_TIMEOUT }) := by
  have hdisp := s_binding_input_nom v id flags seq now body sender hflags hseq hlook
  constructor
  · intro hc
    rw [hdisp]
    have h := s_binding_command_rep_dup v id p flags seq now body m r sender
      hroute hp hreply hbody hfit hc.1 hc.2
    exact ⟨h.1, h.2.1, h.2.2.1, h.2.2.2.1⟩
  · intro hc
    rw [hdisp]
    exact s_binding_command_rep_fresh v id p flags seq now body m sender
      hroute hnom hp hbody hcolon hc

/-- C5: on a REQ vocket an application send pops the round-robin head of
`live_peerings` and returns it to the back of the rotation in every case.
When that peering already holds an in-flight request, the message is
dropped with a logged error and the peering — its in-flight slot and its
send sequence in particular — is left completely unchanged, and nothing is
sent.  When no request is in flight, the send sequence is incremented by
exactly one (`uint` increment: by one whenever it does not wrap 2^32), the
message is stored as the in-flight request, and the message is transmitted
as a NOM carrying the new sequence. -/
theorem C5_req_inflight_send (v : Vocket) (id : Nat) (p : Peering)
    (rest : List Nat) (msg : Zmsg) (now : Nat)
    (hroute : v.routing = VTX_ROUTING_REQUEST)
    (hlive : v.live_peerings = id :: rest)
    (hmin : v.min_peerings ≤ (id :: rest).length)
    (hp : getPeering v id = some p)
    (hfit : (zmsg_encode msg).length + VTX_UDP_HEADER ≤ VTX_UDP_MSGMAX) :
    (∀ r, p.request = some r →
      sbIsDone (s_vocket_input v msg now) = true ∧
      (sbState v (s_vocket_input v msg now)).live_peerings = rest ++ [id] ∧
      getPeering (sbState v (s_vocket_input v msg now)) id = some p ∧
      (sbState v (s_vocket_input v msg now)).sent = v.sent) ∧
    (p.request = none →
      sbIsDone (s_vocket_input v msg now) = true ∧
      (sbState v (s_vocket_input v msg now)).live_peerings = rest ++ [id] ∧
      getPeering (sbState v (s_vocket_input v msg now)) id =
        some { p with sendseq := uadd p.sendseq 1, request := some msg,
                      silent := now + VTX_UDP_TIMEOUT / 3 } ∧
      (sbState v (s_vocket_input v msg now)).sent =
        v.sent ++ [(p.addr, 16 :: (80 + uadd p.sendseq 1 % 16) :: zmsg_encode msg)]) ∧
    (p.sendseq + 1 < U32 → uadd p.sendseq 1 = p.sendseq + 1) := by
  simp only [getPeering] at hp
  have hnl : ¬ (rest.length + 1 < v.min_peerings) := by
    simp only [List.length_cons] at hmin; omega
  have hfit2 : (zmsg_encode msg).length ≤ 510 := by
    simp only [VTX_UDP_HEADER, VTX_UDP_MSGMAX] at hfit; omega
  refine ⟨?_, ?_, ?_⟩
  · intro r hr
    simp [s_vocket_input, hnl, hroute, VTX_ROUTING_NONE, VTX_ROUTING_REQUEST,
      hlive, getPeering, hp, hr, sbState, sbIsDone]
  · intro hr
    simp [s_vocket_input, hnl, hroute, VTX_ROUTING_NONE, VTX_ROUTING_REQUEST,
      hlive, getPeering, hp, hr, sbState, sbIsDone, peering_send_msg,
      peering_send, hfit2, VTX_UDP_VERSION, VTX_UDP_NOM, VTX_UDP_HEADER,
      VTX_UDP_MSGMAX]
  · intro hlt
    simp only [uadd]
    exact Nat.mod_eq_of_lt hlt

/-- Witness for C5 on a concrete live REQ vocket, in the no-request-in-flight
case. -/
theorem C5_req_inflight_send_witness :
    sbIsDone (s_vocket_input c5_live [[1, 2]] 2) = true ∧
    (sbState c5_live (s_vocket_input c5_live [[1, 2]] 2)).live_peerings =
      [] ++ [0] ∧
    getPeering (sbState c5_live (s_vocket_input c5_live [[1, 2]] 2)) 0 =
      some { (getPeering c5_live 0).getD default with
               sendseq := uadd ((getPeering c5_live 0).getD default).sendseq 1,
               request := some [[1, 2]],
               silent := 2 + VTX_UDP_TIMEOUT / 3 } ∧
    (sbState c5_live (s_vocket_input c5_live [[1, 2]] 2)).sent =
      c5_live.sent ++
        [(((getPeering c5_live 0).getD default).addr,
          16 :: (80 + uadd ((getPeering c5_live 0).getD default).sendseq 1 % 16) ::
            zmsg_encode [[1, 2]])] :=
  (C5_req_inflight_send c5_live 0 ((getPeering c5_live 0).getD default) [] [[1, 2]] 2
      (by decide) (by decide) (by decide) (by decide) (by decide)).2.1 (by decide)

/-- Witness for C4 on the concrete REP vocket of the counterexample scenario:
a duplicate with flags nibble 1 (the RESEND bit) and sequence 1. -/
theorem C4_rep_resend_dedup_witness :
    sbIsDone (s_binding_input c4_replied
      ((16 + 1) :: (80 + 1) :: zmsg_encode [[88]]) c4_addr 3) = true ∧
    (sbState c4_replied (s_binding_input c4_replied
      ((16 + 1) :: (80 + 1) :: zmsg_encode [[88]]) c4_addr 3)).piped
      = c4_replied.piped ∧
    (sbState c4_replied (s_binding_input c4_replied
      ((16 + 1) :: (80 + 1) :: zmsg_encode [[88]]) c4_addr 3)).sent
      = c4_replied.sent ++
        [(((getPeering c4_replied 0).getD default).addr,
          16 :: (80 + ((getPeering c4_replied 0).getD default).sendseq % 16) ::
            zmsg_encode [[79, 75]])] ∧
    (sbState c4_replied (s_binding_input c4_replied
      ((16 + 1) :: (80 + 1) :: zmsg_encode [[88]]) c4_addr 3)).dropped
      = c4_replied.dropped + 1 :=
  (C4_rep_resend_dedup c4_replied 0 ((getPeering c4_replied 0).getD default)
      1 1 3 (zmsg_encode [[88]]) [[88]] [[79, 75]] c4_addr
      (by decide) (by decide) (by decide) (by decide) (by decide)
      (by decide) (by decide) (by decide) (by decide) (by decide)).1
    ⟨by decide, by decide⟩

/-- C1: the claim states that frames stored by `vtx_codec_msg_put` are
returned by `vtx_codec_msg_get` in order, by-copy and by-reference frames
alike.  The code violates this: `vtx_codec_msg_get` never advances
`batch_head` past a reference batch, so after both puts succeed and the
first get correctly returns the 30-byte frame, the second get lands on the
consumed reference batch, whose `size` is 0, and dies on `assert
(self->extract_size)` instead of returning the second frame. -/
theorem C1_codec_fifo_roundtrip_bug :
    (vtx_codec_msg_put c1_codec0 c1_large false).isSome = true ∧
    (vtx_codec_msg_put c1_after1 c1_small false).isSome = true ∧
    msgGetPayload (vtx_codec_msg_get c1_after2) = some (c1_large, false) ∧
    getIsFault (vtx_codec_msg_get
      (msgGetNext c1_after2 (vtx_codec_msg_get c1_after2))) = true := by
  decide

/-- C3: the claim states that the codec, once constructed, returns `corrupt`
to the caller instead of panicking on a malformed frame header such as a
zero length octet.  The code violates this: storing the bytes 00 00 with
`vtx_codec_bin_put` succeeds, and the following `vtx_codec_msg_get` dies on
`assert (frame_size > 0)` in `s_get_zmq_header` (the source's own TODO
notes that invalid headers should signal an error instead). -/
theorem C3_codec_corrupt_header_bug :
    (vtx_codec_bin_put c1_codec0 [0, 0]).isSome = true ∧
    vtx_codec_msg_get c3_after = GetResult.fault := by
  decide

/-- C2: the claim states that no assertion in the UDP input handler can fail
because of remote behaviour.  The code violates this: after a peering is
established on a REP vocket (OHAI handled without fault, peering 0 alive
with `recvseq` 0 and no stored reply), a NOM datagram with a nonzero flags
nibble and sequence 0 takes the duplicate-request branch and dies on
`assert (peering->reply)`. -/
theorem C2_remote_input_abort_bug :
    sbIsDone (s_binding_input c2_rep0 [16, 16] c2_addr 0) = true ∧
    (getPeering c2_established 0).map Peering.alive = some true ∧
    (getPeering c2_established 0).map Peering.recvseq = some 0 ∧
    (getPeering c2_established 0).map Peering.reply = some none ∧
    s_binding_input c2_established [17, 80] c2_addr 1 = SBResult.fault := by
  decide

/-- C10: `vtx_close` only performs the CLOSE driver call: whenever it returns,
the sockets table and the set of destroyed sockets are unchanged (the
`zsocket_destroy` in the source is unreachable, after the return
statement), and on a socket whose entry carries a driver it sends exactly
the four-frame CLOSE request to that driver and returns the driver's
numeric reply. -/
theorem C10_close_keeps_socket_alive (s : VtxT) (socket : Nat) (reply : Option Int) :
    (∀ rc s2, vtx_close s socket reply = CallResult.ret rc s2 →
      s2.sockets = s.sockets ∧ s2.destroyed = s.destroyed) ∧
    (∀ vs d, zhash_lookup s.sockets socket = some vs → vs.driver = some d →
      vtx_close s socket reply =
        CallResult.ret (reply.getD 0)
          { s with driverSends := s.driverSends ++
              [(d, [cmdCLOSE, decimalAscii vs.type, s_socket_key socket, []])] }) := by
  constructor
  · intro rc s2 h
    unfold vtx_close s_driver_call at h
    cases hl : zhash_lookup s.sockets socket with
    | none => simp [hl] at h; exact ⟨h.2 ▸ rfl, h.2 ▸ rfl⟩
    | some vs =>
      cases hd : vs.driver with
      | none => simp [hl, hd] at h
      | some d =>
        simp [hl, hd] at h
        obtain ⟨h1, h2⟩ := h
        subst h2
        exact ⟨rfl, rfl⟩
  · intro vs d hl hd
    unfold vtx_close s_driver_call
    simp [hl, hd]

/-- Witness for C10 at a concrete registry state with one socket fixed to
driver 0. -/
theorem C10_close_keeps_socket_alive_witness :
    (∀ rc s2, vtx_close ⟨[([117, 100, 112], 0)],
        [(5, ⟨5, 3, some 0⟩)], [], []⟩ 5 (some 0) = CallResult.ret rc s2 →
      s2.sockets = [(5, ⟨5, 3, some 0⟩)] ∧ s2.destroyed = []) ∧
    vtx_close ⟨[([117, 100, 112], 0)], [(5, ⟨5, 3, some 0⟩)], [], []⟩ 5 (some 0) =
      CallResult.ret 0 ⟨[([117, 100, 112], 0)], [(5, ⟨5, 3, some 0⟩)],
        [(0, [cmdCLOSE, decimalAscii 3, s_socket_key 5, []])], []⟩ := by
  have h := C10_close_keeps_socket_alive
    ⟨[([117, 100, 112], 0)], [(5, ⟨5, 3, some 0⟩)], [], []⟩ 5 (some 0)
  exact ⟨h.1, h.2 ⟨5, 3, some 0⟩ 0 (by decide) rfl⟩

/-- Lookup skips a prefix in which the key does not occur. -/
theorem zhash_lookup_append_of_none [DecidableEq K] (h t : List (K × V)) (j : K)
    (hn : zhash_lookup h j = none) :
    zhash_lookup (h ++ t) j = zhash_lookup t j := by
  induction h with
  | nil => simp
  | cons e s ih =>
    simp only [zhash_lookup] at hn ⊢
    by_cases he : e.1 = j
    · simp [he] at hn
    · simp only [List.cons_append, zhash_lookup, if_neg he]
      exact ih (by simpa [he] using hn)

/-- The address-filter count is unchanged by an entry-wise update that keeps
every peering's address. -/
theorem filter_addr_update_map (l : List (Nat × Peering)) (id : Nat)
    (f : Peering → Peering) (a : List Nat) (hf : ∀ q, (f q).address = q.address) :
    ((l.map (fun e => if e.1 = id then (e.1, f e.2) else e)).filter
      (fun e => decide (e.2.address = a))).length =
    (l.filter (fun e => decide (e.2.address = a))).length := by
  induction l with
  | nil => rfl
  | cons e t ih =>
    simp only [List.map_cons, List.filter_cons]
    by_cases he : e.1 = id
    · rw [if_pos he]
      simp only [hf]
      by_cases ha : e.2.address = a <;> simp [ha, ih]
    · rw [if_neg he]
      by_cases ha : e.2.address = a <;> simp [ha, ih]

/-- The same, stated below `updatePeering`'s `store` projection. -/
theorem filter_addr_updatePeering (v : Vocket) (id : Nat) (f : Peering → Peering)
    (a : List Nat) (hf : ∀ q, (f q).address = q.address) :
    ((updatePeering v id f).store.filter (fun e => decide (e.2.address = a))).length =
      (v.store.filter (fun e => decide (e.2.address = a))).length := by
  show ((v.store.map fun e => if e.1 = id then (e.1, f e.2) else e).filter
    (fun e => decide (e.2.address = a))).length = _
  exact filter_addr_update_map v.store id f a hf

/-- An address containing a colon is strictly longer than its host part, so
the truncated binding key differs from the full address. -/
theorem hostOf_ne_of_colon (addr : List Nat) (h : colonByte ∈ addr) :
    hostOf addr ≠ addr := by
  induction addr with
  | nil => simp at h
  | cons b t ih =>
    simp only [hostOf, List.takeWhile]
    by_cases hb : b = colonByte
    · subst hb
      simp
    · have hbn : (decide (b ≠ colonByte)) = true := by simp [hb]
      rw [hbn]
      intro heq
      have ht : colonByte ∈ t := by
        cases h with
        | head => exact absurd rfl hb
        | tail _ hh => exact hh
      injection heq with h1 h2
      exact ih ht h2

/-- C6, counterexample to the claim as stated: on a PAIR vocket (max peerings
one), the first connect succeeds and brings the peering count to the
maximum, and the second identical connect returns the error reply "1"
([49]) rather than success — `s_driver_control` tests `peerings <
max_peerings` before `peering_require`'s idempotent lookup can run.  The
single peering for the address does remain. -/
theorem C6_pair_connect_counterexample :
    c6_pair1.1 = [48] ∧
    c6_pair1.2.1.peerings = 1 ∧
    (s_driver_control c6_pair1.2.1 c6_pair1.2.2 Cmd.CONNECT c6_addr 1).1 = [49] ∧
    peeringsFor (s_driver_control c6_pair1.2.1 c6_pair1.2.2 Cmd.CONNECT c6_addr 1).2.1
      c6_addr = 1 := by
  decide

/-- C6 (amended: the second identical connect returns success only while the
vocket stays below its max-peerings cap; at the cap — the PAIR case — it
returns the too-many-peerings error, though still exactly one peering for
the address remains): two successive identical binds both return success
and leave exactly one binding for the address; two successive identical
connects leave exactly one peering for the address, the first returning
success, the second returning success if and only if the count after the
first connect is still below the cap. -/
theorem C6_bind_connect_idempotent (v : Vocket) (os : OsState) (addr : List Nat)
    (now now2 : Nat)
    (hcolon : colonByte ∈ addr)
    (hb1 : zhash_lookup v.binding_hash addr = none)
    (hb2 : zhash_lookup v.binding_hash (hostOf addr) = none)
    (hos : addr ∉ os)
    (hbcnt : bindingsFor v addr = 0)
    (hnofind : zhash_lookup v.peering_hash addr = none)
    (hfresh : zhash_lookup v.store v.nextId = none)
    (hfit : addr.length + VTX_UDP_HEADER ≤ VTX_UDP_MSGMAX)
    (hcnt : peeringsFor v addr = 0)
    (h1 : v.peerings < v.max_peerings) :
    ((s_driver_control v os Cmd.BIND addr now).1 = [48] ∧
     (s_driver_control (s_driver_control v os Cmd.BIND addr now).2.1
        (s_driver_control v os Cmd.BIND addr now).2.2 Cmd.BIND addr now2).1 = [48] ∧
     bindingsFor (s_driver_control (s_driver_control v os Cmd.BIND addr now).2.1
        (s_driver_control v os Cmd.BIND addr now).2.2 Cmd.BIND addr now2).2.1 addr = 1) ∧
    ((s_driver_control v os Cmd.CONNECT addr now).1 = [48] ∧
     peeringsFor (s_driver_control v os Cmd.CONNECT addr now).2.1 addr = 1 ∧
     (v.peerings + 1 < v.max_peerings →
       (s_driver_control (s_driver_control v os Cmd.CONNECT addr now).2.1 os
          Cmd.CONNECT addr now2).1 = [48]) ∧
     (¬ v.peerings + 1 < v.max_peerings →
       (s_driver_control (s_driver_control v os Cmd.CONNECT addr now).2.1 os
          Cmd.CONNECT addr now2).1 = [49]) ∧
     peeringsFor (s_driver_control (s_driver_control v os Cmd.CONNECT addr now).2.1 os
        Cmd.CONNECT addr now2).2.1 addr = 1) := by
  have hhost := hostOf_ne_of_colon addr hcolon
  have hfit2 : addr.length ≤ 510 := by
    simp only [VTX_UDP_HEADER, VTX_UDP_MSGMAX] at hfit; omega
  simp only [peeringsFor] at hcnt
  simp only [bindingsFor] at hbcnt
  have hbindState : (s_driver_control v os Cmd.BIND addr now) =
      ([48], { v with binding_hash := v.binding_hash ++ [(hostOf addr, ⟨addr⟩)] },
       os ++ [addr]) := by
    simp [s_driver_control, binding_require, hb1, hos, zhash_insert, hb2]
  have hconnReply : (s_driver_control v os Cmd.CONNECT addr now).1 = [48] := by
    simp [s_driver_control, h1]
  have hconnCount : peeringsFor (s_driver_control v os Cmd.CONNECT addr now).2.1 addr
      = 1 := by
    simp only [s_driver_control, if_pos h1]
    simp only [peering_require, hnofind]
    simp [s_peering_monitor, getPeering, peering_send,
      zhash_lookup_append_of_none _ _ _ hfresh, zhash_lookup, hfit2,
      VTX_UDP_VERSION, VTX_UDP_OHAI, VTX_UDP_HEADER, VTX_UDP_MSGMAX,
      peeringsFor, filter_addr_updatePeering, List.filter_append, hcnt]
  have hP : (s_driver_control v os Cmd.CONNECT addr now).2.1.peerings
      = v.peerings + 1 := by
    simp only [s_driver_control, if_pos h1]
    simp only [peering_require, hnofind]
    simp [s_peering_monitor, getPeering, peering_send,
      zhash_lookup_append_of_none _ _ _ hfresh, zhash_lookup, hfit2,
      VTX_UDP_VERSION, VTX_UDP_OHAI, VTX_UDP_HEADER, VTX_UDP_MSGMAX]
  have hM : (s_driver_control v os Cmd.CONNECT addr now).2.1.max_peerings
      = v.max_peerings := by
    simp only [s_driver_control, if_pos h1]
    simp only [peering_require, hnofind]
    simp [s_peering_monitor, getPeering, peering_send,
      zhash_lookup_append_of_none _ _ _ hfresh, zhash_lookup, hfit2,
      VTX_UDP_VERSION, VTX_UDP_OHAI, VTX_UDP_HEADER, VTX_UDP_MSGMAX]
  have hL : zhash_lookup (s_driver_control v os Cmd.CONNECT addr now).2.1.peering_hash
      addr = some v.nextId := by
    simp only [s_driver_control, if_pos h1]
    simp only [peering_require, hnofind]
    simp [s_peering_monitor, getPeering, peering_send,
      zhash_lookup_append_of_none _ _ _ hfresh, zhash_lookup, hfit2,
      zhash_insert, hnofind, zhash_lookup_append_of_none _ _ _ hnofind,
      VTX_UDP_VERSION, VTX_UDP_OHAI, VTX_UDP_HEADER, VTX_UDP_MSGMAX]
  refine ⟨⟨?_, ?_, ?_⟩, hconnReply, hconnCount, ?_, ?_, ?_⟩
  · rw [hbindState]
  · rw [hbindState]
    simp [s_driver_control]
  · rw [hbindState]
    simp only [s_driver_control, binding_require]
    rw [zhash_lookup_append_of_none _ _ _ hb1]
    have hnone2 : zhash_lookup [(hostOf addr, (⟨addr⟩ : Binding))] addr = none := by
      simp [zhash_lookup, hhost]
    rw [hnone2]
    simp [bindingsFor, List.filter_append, hbcnt]
  · intro h2
    generalize hgen : (s_driver_control v os Cmd.CONNECT addr now).2.1 = w at hP hM hL ⊢
    simp [s_driver_control, hP, hM, h2, peering_require, hL]
  · intro h2
    generalize hgen : (s_driver_control v os Cmd.CONNECT addr now).2.1 = w at hP hM ⊢
    simp [s_driver_control, hP, hM, h2]
  · by_cases h2 : v.peerings + 1 < v.max_peerings
    · generalize hgen : (s_driver_control v os Cmd.CONNECT addr now).2.1 = w
        at hP hM hL hconnCount ⊢
      simp [s_driver_control, hP, hM, h2, peering_require, hL]
      simpa [peeringsFor] using hconnCount
    · generalize hgen : (s_driver_control v os Cmd.CONNECT addr now).2.1 = w
        at hP hM hconnCount ⊢
      simp [s_driver_control, hP, hM, h2]
      simpa [peeringsFor] using hconnCount

/-- Witness for C6 on a fresh REQ vocket and the address "c:3". -/
theorem C6_bind_connect_idempotent_witness :
    ((s_driver_control c6_req0 [] Cmd.BIND c6_addr 0).1 = [48] ∧
     (s_driver_control (s_driver_control c6_req0 [] Cmd.BIND c6_addr 0).2.1
        (s_driver_control c6_req0 [] Cmd.BIND c6_addr 0).2.2 Cmd.BIND c6_addr 1).1
       = [48] ∧
     bindingsFor (s_driver_control (s_driver_control c6_req0 [] Cmd.BIND c6_addr 0).2.1
        (s_driver_control c6_req0 [] Cmd.BIND c6_addr 0).2.2 Cmd.BIND c6_addr 1).2.1
       c6_addr = 1) ∧
    ((s_driver_control c6_req0 [] Cmd.CONNECT c6_addr 0).1 = [48] ∧
     peeringsFor (s_driver_control c6_req0 [] Cmd.CONNECT c6_addr 0).2.1 c6_addr = 1 ∧
     (c6_req0.peerings + 1 < c6_req0.max_peerings →
       (s_driver_control (s_driver_control c6_req0 [] Cmd.CONNECT c6_addr 0).2.1 []
          Cmd.CONNECT c6_addr 1).1 = [48]) ∧
     (¬ c6_req0.peerings + 1 < c6_req0.max_peerings →
       (s_driver_control (s_driver_control c6_req0 [] Cmd.CONNECT c6_addr 0).2.1 []
          Cmd.CONNECT c6_addr 1).1 = [49]) ∧
     peeringsFor (s_driver_control (s_driver_control c6_req0 [] Cmd.CONNECT c6_addr 0).2.1
        [] Cmd.CONNECT c6_addr 1).2.1 c6_addr = 1) :=
  C6_bind_connect_idempotent c6_req0 [] c6_addr 0 1 (by decide) (by decide)
    (by decide) (by decide) (by decide) (by decide) (by decide) (by decide)
    (by decide) (by decide)

theorem nmod (a N : Nat) (h0 : 0 < N) (h : a < 2 * N) :
    a % N = if a < N then a else a - N := by
  by_cases hl : a < N
  · simp [hl, Nat.mod_eq_of_lt hl]
  · rw [if_neg hl, Nat.mod_eq_sub_mod (Nat.le_of_not_lt hl),
      Nat.mod_eq_of_lt (by omega)]

theorem count_char (h t N : Nat) (hh : h < N) (ht : t < N) :
    (t + N - h) % N = if h ≤ t then t - h else t + N - h := by
  by_cases hle : h ≤ t
  · rw [if_pos hle]
    have heq : t + N - h = (t - h) + N := by omega
    rw [heq, Nat.add_mod_right, Nat.mod_eq_of_lt (by omega)]
  · rw [if_neg hle, Nat.mod_eq_of_lt (by omega)]

theorem getD_set_same (l : List α) (i : Nat) (v d : α) (h : i < l.length) :
    (l.set i v).getD i d = v := by
  induction l generalizing i with
  | nil => simp at h
  | cons a t ih =>
    cases i with
    | zero => rfl
    | succ n => exact ih n (by simpa using h)

theorem getD_set_diff (l : List α) (i j : Nat) (v d : α) (h : i ≠ j) :
    (l.set i v).getD j d = l.getD j d := by
  induction l generalizing i j with
  | nil => simp
  | cons a t ih =>
    cases i with
    | zero =>
      cases j with
      | zero => exact absurd rfl h
      | succ m => rfl
    | succ n =>
      cases j with
      | zero => rfl
      | succ m => exact ih n m (by omega)

theorem contents_length (q : Queue) :
    (queue_contents q).length = queue_count q := by
  simp [queue_contents]

theorem idx_ne_tail (h t N i : Nat) (hh : h < N) (ht : t < N)
    (hi : i < (t + N - h) % N) : (h + i) % N ≠ t := by
  rw [count_char h t N hh ht] at hi
  have hb : h + i < 2 * N := by split_ifs at hi <;> omega
  rw [nmod (h + i) N (by omega) hb]
  split_ifs at hi ⊢ <;> omega

theorem idx_last_tail (h t N : Nat) (hh : h < N) (ht : t < N) :
    (h + (t + N - h) % N) % N = t := by
  rw [count_char h t N hh ht]
  by_cases hle : h ≤ t
  · rw [if_pos hle]
    have : h + (t - h) = t := by omega
    rw [this, Nat.mod_eq_of_lt ht]
  · rw [if_neg hle]
    have : h + (t + N - h) = t + N := by omega
    rw [this, Nat.add_mod_right, Nat.mod_eq_of_lt ht]

theorem store_not_full (q : Queue) (f : Frame)
    (h1 : 1 ≤ q.limit) (h2 : q.limit ≤ 2 ^ 31)
    (hh : q.head < q.limit) (ht : q.tail < q.limit)
    (hlen : q.queue.length = q.limit)
    (hnf : (q.tail + 1) % q.limit ≠ q.head) :
    queue_store q f =
      { queue := q.queue.set q.tail f, limit := q.limit,
        head := q.head, tail := (q.tail + 1) % q.limit } ∧
    queue_contents (queue_store q f) = queue_contents q ++ [f] := by
  have hu : uadd q.tail 1 = q.tail + 1 := by
    simp only [uadd, U32]; omega
  have hst : queue_store q f =
      { queue := q.queue.set q.tail f, limit := q.limit,
        head := q.head, tail := (q.tail + 1) % q.limit } := by
    simp only [queue_store, hu]
    rw [if_neg hnf]
  refine ⟨hst, ?_⟩
  rw [hst]
  have hcnt : ((q.tail + 1) % q.limit + q.limit - q.head) % q.limit =
      (q.tail + q.limit - q.head) % q.limit + 1 := by
    rcases Nat.lt_or_ge (q.tail + 1) q.limit with hlt | hge
    · rw [Nat.mod_eq_of_lt hlt] at hnf
      rw [Nat.mod_eq_of_lt hlt, count_char _ _ _ hh hlt, count_char _ _ _ hh ht]
      split_ifs <;> omega
    · have hteq : q.tail + 1 = q.limit := by omega
      rw [hteq, Nat.mod_self, count_char _ _ _ hh ht]
      have hh0 : q.head ≠ 0 := by
        intro h0; rw [hteq] at hnf; rw [Nat.mod_self] at hnf; exact hnf h0.symm
      rw [Nat.mod_eq_of_lt (by omega)]
      split_ifs <;> omega
  apply List.ext_getElem
  · simp [queue_contents, queue_count, hcnt, contents_length]
  · intro i hi1 hi2
    simp only [queue_contents, queue_count, List.getElem_map, List.getElem_range] at hi1 ⊢
    simp only [hcnt] at hi1 ⊢
    simp only [List.length_map, List.length_range] at hi1
    by_cases hic : i < (q.tail + q.limit - q.head) % q.limit
    · have hne : (q.head + i) % q.limit ≠ q.tail := idx_ne_tail _ _ _ _ hh ht hic
      rw [getD_set_diff q.queue q.tail _ f 0 (fun hx => hne hx.symm)]
      have hil : i < (List.map (fun i => q.queue.getD ((q.head + i) % q.limit) 0)
          (List.range ((q.tail + q.limit - q.head) % q.limit))).length := by
        simpa using hic
      rw [List.getElem_append_left hil]
      simp
    · have hieq : i = (q.tail + q.limit - q.head) % q.limit := by omega
      subst hieq
      rw [idx_last_tail _ _ _ hh ht, getD_set_same _ _ _ _ (by omega)]
      have hge : (List.map (fun i => q.queue.getD ((q.head + i) % q.limit) 0)
          (List.range ((q.tail + q.limit - q.head) % q.limit))).length ≤
          (q.tail + q.limit - q.head) % q.limit := by simp
      rw [List.getElem_append_right hge]
      simp

theorem store_full (q : Queue) (f : Frame)
    (h1 : 1 ≤ q.limit) (h2 : q.limit ≤ 2 ^ 31)
    (hh : q.head < q.limit) (ht : q.tail < q.limit)
    (hlen : q.queue.length = q.limit)
    (hf : (q.tail + 1) % q.limit = q.head) :
    queue_store q f =
      { queue := q.queue.set q.tail f, limit := q.limit,
        head := (q.head + 1) % q.limit, tail := q.head } ∧
    queue_contents (queue_store q f) = (queue_contents q ++ [f]).drop 1 := by
  have hu : uadd q.tail 1 = q.tail + 1 := by simp only [uadd, U32]; omega
  have hu2 : uadd q.head 1 = q.head + 1 := by simp only [uadd, U32]; omega
  have hst : queue_store q f =
      { queue := q.queue.set q.tail f, limit := q.limit,
        head := (q.head + 1) % q.limit, tail := q.head } := by
    simp only [queue_store, hu, hu2]
    rw [if_pos hf, hf]
  refine ⟨hst, ?_⟩
  rw [hst]
  have hfn : (if q.tail + 1 < q.limit then q.tail + 1 else q.tail + 1 - q.limit)
      = q.head := by
    rw [← nmod (q.tail + 1) q.limit (by omega) (by omega)]; exact hf
  have hcnt1 : (q.tail + q.limit - q.head) % q.limit = q.limit - 1 := by
    rw [nmod (q.tail + q.limit - q.head) q.limit (by omega) (by omega)]
    split_ifs at hfn ⊢ <;> omega
  have hcnt2 : (q.head + q.limit - (q.head + 1) % q.limit) % q.limit
      = q.limit - 1 := by
    rw [nmod (q.head + 1) q.limit (by omega) (by omega)]
    rcases Nat.lt_or_ge (q.head + 1) q.limit with hl | hg
    · rw [if_pos hl, nmod _ q.limit (by omega) (by omega)]
      split_ifs <;> omega
    · rw [if_neg (by omega), nmod _ q.limit (by omega) (by omega)]
      split_ifs <;> omega
  apply List.ext_getElem
  · simp [queue_contents, queue_count, hcnt1, hcnt2]
  · intro i hi1 hi2
    simp only [queue_contents, queue_count, List.getElem_map, List.getElem_range,
      List.length_map, List.length_range, hcnt1, hcnt2] at hi1 hi2 ⊢
    rw [List.getElem_drop]
    rw [Nat.mod_add_mod]
    by_cases hic : 1 + i < q.limit - 1
    · have hne : (q.head + 1 + i) % q.limit ≠ q.tail := by
        rw [nmod (q.head + 1 + i) q.limit (by omega) (by omega)]
        split_ifs at hfn ⊢ <;> omega
      rw [getD_set_diff q.queue q.tail _ f 0 (fun hx => hne hx.symm)]
      have hil : 1 + i < (List.map (fun i => q.queue.getD ((q.head + i) % q.limit) 0)
          (List.range (q.limit - 1))).length := by
        simp; omega
      rw [List.getElem_append_left hil]
      simp only [List.getElem_map, List.getElem_range]
      have : q.head + (1 + i) = q.head + 1 + i := by omega
      rw [this]
    · have hieq : 1 + i = q.limit - 1 := by omega
      have hidx : (q.head + 1 + i) % q.limit = q.tail := by
        rw [nmod (q.head + 1 + i) q.limit (by omega) (by omega)]
        split_ifs at hfn ⊢ <;> omega
      rw [hidx, getD_set_same _ _ _ _ (by omega)]
      have hge : (List.map (fun i => q.queue.getD ((q.head + i) % q.limit) 0)
          (List.range (q.limit - 1))).length ≤ 1 + i := by
        simp; omega
      rw [List.getElem_append_right hge]
      simp

theorem cnt_drop_oldest (h t N : Nat) (hh : h < N) (ht : t < N) (hne : h ≠ t) :
    (t + N - (h + 1) % N) % N = (t + N - h) % N - 1 := by
  rw [nmod (h + 1) N (by omega) (by omega)]
  rw [nmod (t + N - h) N (by omega) (by omega)]
  split_ifs with ha hb hc
  all_goals rw [nmod _ N (by omega) (by omega)]
  all_goals split_ifs <;> omega

theorem cnt_drop_newest (h t N : Nat) (hh : h < N) (ht : t < N) (hne : h ≠ t) :
    ((t + N - 1) % N + N - h) % N = (t + N - h) % N - 1 := by
  rw [nmod (t + N - 1) N (by omega) (by omega)]
  rw [nmod (t + N - h) N (by omega) (by omega)]
  split_ifs with ha hb hc
  all_goals rw [nmod _ N (by omega) (by omega)]
  all_goals split_ifs <;> omega

theorem full_iff_count (h t N : Nat) (h1 : 1 ≤ N) (hh : h < N) (ht : t < N) :
    (t + 1) % N = h ↔ (t + N - h) % N = N - 1 := by
  rw [nmod (t + 1) N (by omega) (by omega)]
  rw [nmod (t + N - h) N (by omega) (by omega)]
  split_ifs <;> omega

theorem drop_oldest_contents (q : Queue) (h1 : 1 ≤ q.limit) (h2 : q.limit ≤ 2 ^ 31)
    (hh : q.head < q.limit) (ht : q.tail < q.limit) :
    queue_contents (queue_drop_oldest q) = (queue_contents q).drop 1 := by
  by_cases hne : q.head = q.tail
  · have hq : queue_drop_oldest q = q := by simp [queue_drop_oldest, hne]
    have hc : queue_count q = 0 := by
      have h3 : q.tail + q.limit - q.head = q.limit := by omega
      simp [queue_count, h3]
    rw [hq]
    simp [queue_contents, hc]
  · have hu : uadd q.head 1 = q.head + 1 := by simp only [uadd, U32]; omega
    have hd : queue_drop_oldest q =
        { q with head := (q.head + 1) % q.limit } := by
      simp only [queue_drop_oldest, hu]
      rw [if_pos hne]
    rw [hd]
    apply List.ext_getElem
    · simp only [queue_contents, queue_count, List.length_map, List.length_range,
        List.length_drop]
      exact cnt_drop_oldest q.head q.tail q.limit hh ht hne
    · intro i hi1 hi2
      simp only [queue_contents, queue_count, List.getElem_map, List.getElem_range]
      rw [List.getElem_drop]
      simp only [List.getElem_map, List.getElem_range, Nat.mod_add_mod]
      have h3 : q.head + 1 + i = q.head + (1 + i) := by omega
      rw [h3]

theorem drop_newest_contents (q : Queue) (h1 : 1 ≤ q.limit) (h2 : q.limit ≤ 2 ^ 31)
    (hh : q.head < q.limit) (ht : q.tail < q.limit) :
    queue_contents (queue_drop_newest q) = (queue_contents q).dropLast := by
  by_cases hne : q.head = q.tail
  · have hq : queue_drop_newest q = q := by simp [queue_drop_newest, hne]
    have hc : queue_count q = 0 := by
      have h3 : q.tail + q.limit - q.head = q.limit := by omega
      simp [queue_count, h3]
    rw [hq]
    simp [queue_contents, hc]
  · have hun : usub (uadd q.tail q.limit) 1 = q.tail + q.limit - 1 := by
      simp only [uadd, usub, U32]; omega
    have hd : queue_drop_newest q =
        { q with tail := (q.tail + q.limit - 1) % q.limit } := by
      simp only [queue_drop_newest, hun]
      rw [if_pos hne]
    rw [hd]
    apply List.ext_getElem
    · simp only [queue_contents, queue_count, List.length_map, List.length_range,
        List.length_dropLast]
      exact cnt_drop_newest q.head q.tail q.limit hh ht hne
    · intro i hi1 hi2
      simp only [queue_contents, queue_count, List.length_map, List.length_range,
        List.length_dropLast] at hi1 hi2
      rw [List.getElem_dropLast]
      simp only [queue_contents, queue_count, List.getElem_map, List.getElem_range]

theorem queue_size_eq_count (q : Queue) (h1 : 1 ≤ q.limit) (h2 : q.limit ≤ 2 ^ 31)
    (hh : q.head < q.limit) (ht : q.tail < q.limit) :
    queue_size q = queue_count q := by
  have h3 : uadd (usub q.tail q.head) q.limit = q.tail + q.limit - q.head := by
    simp only [uadd, usub, U32]; omega
  simp only [queue_size, queue_count, h3]

theorem queue_apply_wf (q : Queue) (op : QOp) (h1 : 1 ≤ q.limit)
    (hh : q.head < q.limit) (ht : q.tail < q.limit)
    (hlen : q.queue.length = q.limit) :
    (queue_apply q op).limit = q.limit ∧ (queue_apply q op).head < q.limit ∧
    (queue_apply q op).tail < q.limit ∧
    (queue_apply q op).queue.length = q.limit := by
  have hm : ∀ a : Nat, a % q.limit < q.limit := fun a => Nat.mod_lt _ (by omega)
  cases op with
  | store f =>
      simp only [queue_apply, queue_store]
      split_ifs
      · exact ⟨rfl, hm _, hm _, by simp [hlen]⟩
      · exact ⟨rfl, hh, hm _, by simp [hlen]⟩
  | dropOldest =>
      simp only [queue_apply, queue_drop_oldest]
      split_ifs
      · exact ⟨rfl, hm _, ht, hlen⟩
      · exact ⟨rfl, hh, ht, hlen⟩
  | dropNewest =>
      simp only [queue_apply, queue_drop_newest]
      split_ifs
      · exact ⟨rfl, hh, hm _, hlen⟩
      · exact ⟨rfl, hh, ht, hlen⟩

theorem queue_apply_abs (q : Queue) (op : QOp) (h1 : 1 ≤ q.limit)
    (h2 : q.limit ≤ 2 ^ 31) (hh : q.head < q.limit) (ht : q.tail < q.limit)
    (hlen : q.queue.length = q.limit) :
    queue_contents (queue_apply q op) = qabs_apply q.limit (queue_contents q) op := by
  cases op with
  | store f =>
      simp only [queue_apply, qabs_apply]
      by_cases hfull : (q.tail + 1) % q.limit = q.head
      · have hc := (store_full q f h1 h2 hh ht hlen hfull).2
        have h3 := (full_iff_count q.head q.tail q.limit h1 hh ht).mp hfull
        have hlen2 : (queue_contents q ++ [f]).length = q.limit := by
          simp only [List.length_append, contents_length, List.length_singleton,
            queue_count]
          rw [h3]; omega
        rw [hc, if_pos hlen2]
      · have hc := (store_not_full q f h1 h2 hh ht hlen hfull).2
        have hlen2 : ¬ (queue_contents q ++ [f]).length = q.limit := by
          simp only [List.length_append, contents_length, List.length_singleton]
          intro hx
          apply hfull
          apply (full_iff_count q.head q.tail q.limit h1 hh ht).mpr
          exact Nat.eq_sub_of_add_eq hx
        rw [hc, if_neg hlen2]
  | dropOldest =>
      simp only [queue_apply, qabs_apply]
      exact drop_oldest_contents q h1 h2 hh ht
  | dropNewest =>
      simp only [queue_apply, qabs_apply]
      exact drop_newest_contents q h1 h2 hh ht

theorem queue_run_inv (ops : List QOp) (q : Queue) (h1 : 1 ≤ q.limit)
    (h2 : q.limit ≤ 2 ^ 31) (hh : q.head < q.limit) (ht : q.tail < q.limit)
    (hlen : q.queue.length = q.limit) :
    (queue_run q ops).limit = q.limit ∧ (queue_run q ops).head < q.limit ∧
    (queue_run q ops).tail < q.limit ∧
    (queue_run q ops).queue.length = q.limit ∧
    queue_contents (queue_run q ops) = qabs_run q.limit (queue_contents q) ops := by
  induction ops generalizing q with
  | nil => exact ⟨rfl, hh, ht, hlen, rfl⟩
  | cons op ops ih =>
      obtain ⟨w1, w2, w3, w4⟩ := queue_apply_wf q op h1 hh ht hlen
      have habs := queue_apply_abs q op h1 h2 hh ht hlen
      obtain ⟨i1, i2, i3, i4, i5⟩ := ih (queue_apply q op)
        (by rw [w1]; exact h1) (by rw [w1]; exact h2)
        (by rw [w1]; exact w2) (by rw [w1]; exact w3) (by rw [w1]; exact w4)
      rw [w1] at i1 i2 i3 i4
      rw [w1, habs] at i5
      exact ⟨i1, i2, i3, i4, i5⟩

theorem idx_prev_head (h t N : Nat) (hh : h < N) (ht : t < N)
    (hf : (t + 1) % N = h) : (h + N - 1) % N = t := by
  rw [nmod (t + 1) N (by omega) (by omega)] at hf
  rw [nmod (h + N - 1) N (by omega) (by omega)]
  split_ifs at hf ⊢ <;> omega

/-- C9: over a ring of `N` slots (`2 ≤ N ≤ 2^31`), after every operation
sequence from a fresh queue the C `queue_size` formula equals `(tail + N -
head) % N` and equals the number of held frames, and the held frames follow
the drop-oldest sequence semantics; a store into a full queue (next tail
meets head) advances `head`, destroys the oldest frame, retains the new frame
as newest, and leaves the size unchanged. -/
theorem C9_queue_drop_oldest_policy (N : Nat) (hN : 2 ≤ N) (hN2 : N ≤ 2 ^ 31)
    (ops : List QOp) (f : Frame) (q : Queue)
    (hq : q = queue_run (queue_new N) ops) :
    (queue_size q = queue_count q ∧
     queue_size q = (queue_contents q).length ∧
     queue_contents q = qabs_run N [] ops) ∧
    ((q.tail + 1) % q.limit = q.head →
      (queue_store q f).head = (q.head + 1) % N ∧
      queue_contents (queue_store q f) = (queue_contents q).drop 1 ++ [f] ∧
      queue_newest (queue_store q f) = some f ∧
      queue_size (queue_store q f) = queue_size q) := by
  have hc0 : queue_contents (queue_new N) = [] := by
    simp [queue_contents, queue_count, queue_new]
  obtain ⟨w1, w2, w3, w4, w5⟩ := queue_run_inv ops (queue_new N)
    (by simp [queue_new]; omega) (by simp [queue_new]; omega)
    (by simp [queue_new]; omega) (by simp [queue_new]; omega)
    (by simp [queue_new])
  rw [← hq] at w1 w2 w3 w4 w5
  have hl0 : (queue_new N).limit = N := rfl
  rw [hl0, hc0] at w5
  rw [hl0] at w1 w2 w3 w4
  rw [← w1] at w2 w3 w4
  have hq1 : 1 ≤ q.limit := by omega
  have hq2 : q.limit ≤ 2 ^ 31 := by omega
  constructor
  · refine ⟨queue_size_eq_count q hq1 hq2 w2 w3, ?_, w5⟩
    rw [contents_length]
    exact queue_size_eq_count q hq1 hq2 w2 w3
  · intro hfull
    obtain ⟨hst, hcn⟩ := store_full q f hq1 hq2 w2 w3 w4 hfull
    have hlen1 : 1 ≤ (queue_contents q).length := by
      rw [contents_length]
      have h3 := (full_iff_count q.head q.tail q.limit hq1 w2 w3).mp hfull
      simp only [queue_count]
      rw [h3]; omega
    have hcn2 : queue_contents (queue_store q f)
        = (queue_contents q).drop 1 ++ [f] := by
      rw [hcn, List.drop_append_of_le_length hlen1]
    refine ⟨?_, hcn2, ?_, ?_⟩
    · rw [hst, w1]
    · rw [hst]
      have hnen : (q.head + 1) % q.limit ≠ q.head := by
        rw [nmod (q.head + 1) q.limit (by omega) (by omega)]
        split_ifs <;> omega
      have hun : usub (uadd q.head q.limit) 1 = q.head + q.limit - 1 := by
        simp only [uadd, usub, U32]; omega
      simp only [queue_newest, hun, ne_eq]
      rw [if_pos hnen]
      rw [idx_prev_head q.head q.tail q.limit w2 w3 hfull]
      rw [getD_set_same q.queue q.tail f 0 (by omega)]
    · have hm : ∀ a : Nat, a % q.limit < q.limit := fun a => Nat.mod_lt _ (by omega)
      have hs2 : (queue_store q f).head < q.limit := by rw [hst]; exact hm _
      have hs3 : (queue_store q f).tail < q.limit := by rw [hst]; exact w2
      have hs1 : (queue_store q f).limit = q.limit := by rw [hst]
      have e1 := queue_size_eq_count (queue_store q f)
        (by rw [hs1]; exact hq1) (by rw [hs1]; exact hq2)
        (by rw [hs1]; exact hs2) (by rw [hs1]; exact hs3)
      rw [e1, queue_size_eq_count q hq1 hq2 w2 w3,
        ← contents_length, ← contents_length, hcn2]
      simp only [List.length_append, List.length_drop, List.length_singleton]
      omega

/-- C9 counterexample: with a single slot (`N = 1`) the fresh queue already
satisfies the full condition (next tail meets head), and storing into it does
NOT retain the stored frame — the queue stays empty. -/
theorem C9_single_slot_counterexample :
    (uadd (queue_new 1).tail 1 % (queue_new 1).limit = (queue_new 1).head) ∧
    queue_newest (queue_store (queue_new 1) 7) = none ∧
    queue_contents (queue_store (queue_new 1) 7) = [] := by decide

/-- Witness for C9 at `N = 3` after two stores (a full queue). -/
theorem C9_queue_drop_oldest_policy_witness :
    (2 ≤ 3 ∧ 3 ≤ 2 ^ 31) ∧
    queue_newest (queue_store (queue_run (queue_new 3)
      [QOp.store 1, QOp.store 2]) 9) = some 9 := by
  refine ⟨⟨by decide, by decide⟩, ?_⟩
  exact ((C9_queue_drop_oldest_policy 3 (by decide) (by decide)
    [QOp.store 1, QOp.store 2] 9 _ rfl).2 (by decide)).2.2.1

theorem map_fst_update (l : List (Nat × Peering)) (id : Nat)
    (f : Peering → Peering) :
    (l.map (fun e => if e.1 = id then (e.1, f e.2) else e)).map Prod.fst
      = l.map Prod.fst := by
  induction l with
  | nil => rfl
  | cons e t ih => by_cases he : e.1 = id <;> simp [he, ih]

theorem updatePeering_keys (v : Vocket) (id : Nat) (f : Peering → Peering) :
    (updatePeering v id f).store.map Prod.fst = v.store.map Prod.fst := by
  show (v.store.map fun e => if e.1 = id then (e.1, f e.2) else e).map Prod.fst = _
  exact map_fst_update v.store id f

theorem map_upd_not_mem (l : List (Nat × Peering)) (id : Nat)
    (f : Peering → Peering) (h : id ∉ l.map Prod.fst) :
    l.map (fun e => if e.1 = id then (e.1, f e.2) else e) = l := by
  induction l with
  | nil => rfl
  | cons e t ih =>
    simp only [List.map_cons, List.mem_cons, not_or] at h
    rw [List.map_cons, if_neg (fun hx => h.1 hx.symm), ih h.2]

theorem zhash_lookup_mem [DecidableEq K] (l : List (K × V)) (k : K) (w : V)
    (h : zhash_lookup l k = some w) : k ∈ l.map Prod.fst := by
  induction l with
  | nil => simp [zhash_lookup] at h
  | cons e t ih =>
    simp only [zhash_lookup] at h
    by_cases he : e.1 = k
    · simp [he]
    · rw [if_neg he] at h
      simp [ih h]

theorem zhash_lookup_not_mem [DecidableEq K] (l : List (K × V)) (k : K)
    (h : k ∉ l.map Prod.fst) : zhash_lookup l k = none := by
  induction l with
  | nil => rfl
  | cons e t ih =>
    simp only [List.map_cons, List.mem_cons, not_or] at h
    simp only [zhash_lookup]
    rw [if_neg (fun hx => h.1 hx.symm), ih h.2]

theorem alive_filter_update (l : List (Nat × Peering)) (id : Nat)
    (f : Peering → Peering) (hf : ∀ q, (f q).alive = q.alive) :
    ((l.map (fun e => if e.1 = id then (e.1, f e.2) else e)).filter
        (fun e => e.2.alive)).length
      = (l.filter (fun e => e.2.alive)).length := by
  induction l with
  | nil => rfl
  | cons e t ih =>
    by_cases he : e.1 = id <;> by_cases ha : e.2.alive <;>
      simp [he, ha, List.filter_cons, hf, ih]

theorem alive_filter_set_true (l : List (Nat × Peering)) (id : Nat)
    (f : Peering → Peering) (p : Peering)
    (hnd : (l.map Prod.fst).Nodup)
    (hl : zhash_lookup l id = some p) (hp : p.alive = false)
    (hf : ∀ q, (f q).alive = true) :
    ((l.map (fun e => if e.1 = id then (e.1, f e.2) else e)).filter
        (fun e => e.2.alive)).length
      = (l.filter (fun e => e.2.alive)).length + 1 := by
  induction l with
  | nil => simp [zhash_lookup] at hl
  | cons e t ih =>
    simp only [List.map_cons, List.nodup_cons] at hnd
    simp only [zhash_lookup] at hl
    by_cases he : e.1 = id
    · rw [if_pos he] at hl
      injection hl with hpe
      have hmem : id ∉ t.map Prod.fst := he ▸ hnd.1
      rw [List.map_cons, if_pos he, map_upd_not_mem t id f hmem]
      simp [List.filter_cons, hf, hpe ▸ hp]
    · rw [if_neg he] at hl
      have hrec := ih hnd.2 hl
      by_cases ha : e.2.alive <;>
        simp [he, ha, List.filter_cons, hrec] <;> omega

theorem alive_filter_set_false (l : List (Nat × Peering)) (id : Nat)
    (f : Peering → Peering) (p : Peering)
    (hnd : (l.map Prod.fst).Nodup)
    (hl : zhash_lookup l id = some p) (hp : p.alive = true)
    (hf : ∀ q, (f q).alive = false) :
    (l.filter (fun e => e.2.alive)).length
      = ((l.map (fun e => if e.1 = id then (e.1, f e.2) else e)).filter
          (fun e => e.2.alive)).length + 1 := by
  induction l with
  | nil => simp [zhash_lookup] at hl
  | cons e t ih =>
    simp only [List.map_cons, List.nodup_cons] at hnd
    simp only [zhash_lookup] at hl
    by_cases he : e.1 = id
    · rw [if_pos he] at hl
      injection hl with hpe
      have hmem : id ∉ t.map Prod.fst := he ▸ hnd.1
      rw [List.map_cons, if_pos he, map_upd_not_mem t id f hmem]
      simp [List.filter_cons, hf, hpe ▸ hp]
    · rw [if_neg he] at hl
      have hrec := ih hnd.2 hl
      by_cases ha : e.2.alive <;>
        simp [he, ha, List.filter_cons, hrec] <;> omega

theorem zhash_delete_keys [DecidableEq K] (l : List (K × V)) (a : K) :
    (zhash_delete l a).map Prod.fst
      = (l.map Prod.fst).filter (fun k => decide (k ≠ a)) := by
  induction l with
  | nil => rfl
  | cons e t ih =>
    simp only [zhash_delete, decide_not] at ih ⊢
    by_cases he : e.1 = a <;> simp [List.filter_cons, he, ih]

theorem zhash_lookup_delete [DecidableEq K] (l : List (K × V)) (a j : K) :
    zhash_lookup (zhash_delete l a) j
      = if j = a then none else zhash_lookup l j := by
  induction l with
  | nil => simp [zhash_delete, zhash_lookup]
  | cons e t ih =>
    simp only [zhash_delete] at ih
    by_cases he : e.1 = a <;> by_cases hj : j = a <;> by_cases hej : e.1 = j <;>
      simp_all [zhash_delete, List.filter_cons, zhash_lookup]

theorem zhash_delete_not_mem [DecidableEq K] (l : List (K × V)) (a : K)
    (h : a ∉ l.map Prod.fst) : zhash_delete l a = l := by
  induction l with
  | nil => rfl
  | cons e t ih =>
    simp only [List.map_cons, List.mem_cons, not_or] at h
    simp only [zhash_delete, List.filter_cons] at ih ⊢
    have hne : e.1 ≠ a := fun hx => h.1 hx.symm
    rw [ih h.2, if_pos (by simpa using hne)]

theorem alive_filter_delete_dead (l : List (Nat × Peering)) (a : Nat) (p : Peering)
    (hnd : (l.map Prod.fst).Nodup) (hl : zhash_lookup l a = some p)
    (hp : p.alive = false) :
    ((zhash_delete l a).filter (fun e => e.2.alive)).length
      = (l.filter (fun e => e.2.alive)).length := by
  induction l with
  | nil => simp [zhash_lookup] at hl
  | cons e t ih =>
    simp only [List.map_cons, List.nodup_cons] at hnd
    simp only [zhash_lookup] at hl
    simp only [zhash_delete, List.filter_cons] at ih ⊢
    by_cases he : e.1 = a
    · rw [if_pos he] at hl
      injection hl with hpe
      have hdt : zhash_delete t a = t :=
        zhash_delete_not_mem t a (he ▸ hnd.1)
      simp only [zhash_delete] at hdt
      rw [if_neg (by simp [he]), hdt, if_neg (by simp [hpe, hp])]
    · rw [if_neg he] at hl
      have hrec := ih hnd.2 hl
      rw [if_pos (by simp [he])]
      simp only [List.filter_cons]
      by_cases ha : e.2.alive = true
      · rw [if_pos ha, if_pos ha]
        simp only [List.length_cons, hrec]
      · rw [if_neg ha, if_neg ha]
        exact hrec

theorem wf_updatePeering (v : Vocket) (id : Nat) (f : Peering → Peering)
    (hf : ∀ q, (f q).alive = q.alive) (h : peerings_wf v) :
    peerings_wf (updatePeering v id f) := by
  obtain ⟨h1, h2, h3, h4, h5, h6, h7⟩ := h
  refine ⟨?_, ?_, ?_, ?_, ?_, ?_, ?_⟩
  · rw [updatePeering_keys]; exact h1
  · rw [updatePeering_keys, updatePeering_peering_list]; exact h2
  · rw [updatePeering_live_peerings]; exact h3
  · intro j hj
    rw [updatePeering_live_peerings] at hj
    obtain ⟨p, hp, hpa⟩ := h4 j hj
    rw [updatePeering_store_lookup]
    by_cases hji : j = id
    · subst hji
      rw [if_pos rfl, hp]
      exact ⟨f p, rfl, by rw [hf]; exact hpa⟩
    · rw [if_neg hji]
      exact ⟨p, hp, hpa⟩
  · intro j p hp hpa
    rw [updatePeering_store_lookup] at hp
    rw [updatePeering_live_peerings]
    by_cases hji : j = id
    · subst hji
      rw [if_pos rfl] at hp
      cases hq : zhash_lookup v.store j with
      | none => rw [hq] at hp; simp at hp
      | some q =>
        rw [hq] at hp
        have hp2 : f q = p := by simpa using hp
        apply h5 j q hq
        rw [← hf q, hp2]
        exact hpa
    · rw [if_neg hji] at hp
      exact h5 j p hp hpa
  · intro j hj
    rw [updatePeering_keys] at hj
    rw [updatePeering_nextId]
    exact h6 j hj
  · rw [updatePeering_live_peerings]
    show _ = ((v.store.map fun e => if e.1 = id then (e.1, f e.2) else e).filter
      (fun e => e.2.alive)).length
    rw [alive_filter_update v.store id f hf]
    exact h7

theorem wf_sent_append (v : Vocket) (d : List Nat × List Nat)
    (h : peerings_wf v) : peerings_wf { v with sent := v.sent ++ [d] } := h

theorem wf_peering_send (v : Vocket) (id command : Nat) (data : List Nat)
    (flags now : Nat) (h : peerings_wf v) :
    peerings_wf (peering_send v id command data flags now) := by
  cases hg : getPeering v id with
  | none => simp only [peering_send, hg]; exact h
  | some p =>
    simp only [peering_send, hg]
    by_cases hlen : data.length + VTX_UDP_HEADER ≤ VTX_UDP_MSGMAX
    · rw [if_pos hlen]
      exact wf_updatePeering _ id _ (fun q => rfl) (wf_sent_append v _ h)
    · rw [if_neg hlen]
      exact h

theorem peering_raise_none (v : Vocket) (id now : Nat)
    (hl : getPeering v id = none) : peering_raise v id now = v := by
  simp only [peering_raise, hl]

theorem peering_raise_alive (v : Vocket) (id now : Nat) (p : Peering)
    (hl : getPeering v id = some p) (ha : p.alive = true) :
    peering_raise v id now = v := by
  simp only [peering_raise, hl, ha]
  rfl

theorem peering_raise_eq (v : Vocket) (id now : Nat) (p : Peering)
    (hl : getPeering v id = some p) (ha : p.alive = false) :
    peering_raise v id now =
      { updatePeering v id (fun q =>
          { q with alive := true, expiry := now + VTX_UDP_TIMEOUT,
                   silent := now + VTX_UDP_TIMEOUT / 3 }) with
        live_peerings := v.live_peerings ++ [id] } := by
  simp only [peering_raise, hl, ha]
  rfl

theorem peering_lower_dead (v : Vocket) (id : Nat)
    (h : ∀ p, getPeering v id = some p → p.alive = false) :
    peering_lower v id = v := by
  cases hl : getPeering v id with
  | none => simp only [peering_lower, hl]
  | some p =>
      simp only [peering_lower, hl, h p hl]
      rfl

theorem peering_lower_eq (v : Vocket) (id : Nat) (p : Peering)
    (hl : getPeering v id = some p) (ha : p.alive = true) :
    peering_lower v id =
      { updatePeering v id (fun q => { q with alive := false }) with
        live_peerings := v.live_peerings.erase id } := by
  simp only [peering_lower, hl, ha]
  rfl

theorem alive_filter_up_true (v : Vocket) (id : Nat)
    (f : Peering → Peering) (p : Peering)
    (hnd : (v.store.map Prod.fst).Nodup)
    (hl : zhash_lookup v.store id = some p) (hp : p.alive = false)
    (hf : ∀ q, (f q).alive = true) :
    ((updatePeering v id f).store.filter (fun e => e.2.alive)).length
      = (v.store.filter (fun e => e.2.alive)).length + 1 :=
  alive_filter_set_true v.store id f p hnd hl hp hf

theorem alive_filter_up_false (v : Vocket) (id : Nat)
    (f : Peering → Peering) (p : Peering)
    (hnd : (v.store.map Prod.fst).Nodup)
    (hl : zhash_lookup v.store id = some p) (hp : p.alive = true)
    (hf : ∀ q, (f q).alive = false) :
    (v.store.filter (fun e => e.2.alive)).length
      = ((updatePeering v id f).store.filter (fun e => e.2.alive)).length + 1 :=
  alive_filter_set_false v.store id f p hnd hl hp hf

theorem wf_raise (v : Vocket) (id now : Nat) (h : peerings_wf v) :
    peerings_wf (peering_raise v id now) := by
  obtain ⟨h1, h2, h3, h4, h5, h6, h7⟩ := h
  cases hl : zhash_lookup v.store id with
  | none =>
      rw [peering_raise_none v id now hl]
      exact ⟨h1, h2, h3, h4, h5, h6, h7⟩
  | some p =>
    by_cases ha : p.alive
    · rw [peering_raise_alive v id now p hl ha]
      exact ⟨h1, h2, h3, h4, h5, h6, h7⟩
    · have ha2 : p.alive = false := by simpa using ha
      rw [peering_raise_eq v id now p hl ha2]
      have hnotlive : id ∉ v.live_peerings := by
        intro hmem
        obtain ⟨q, hq, hqa⟩ := h4 id hmem
        rw [hl] at hq
        injection hq with hq2
        exact ha (hq2 ▸ hqa)
      refine ⟨?_, ?_, ?_, ?_, ?_, ?_, ?_⟩
      · simp only [updatePeering_keys]
        exact h1
      · simp only [updatePeering_keys, updatePeering_peering_list]
        exact h2
      · simp only [updatePeering_live_peerings]
        simp [List.nodup_append, h3, hnotlive]
      · intro j hj
        simp only [updatePeering_live_peerings, List.mem_append,
          List.mem_singleton] at hj
        simp only [updatePeering_store_lookup]
        rcases hj with hj | hj
        · have hji : j ≠ id := fun hx => hnotlive (hx ▸ hj)
          rw [if_neg hji]
          exact h4 j hj
        · subst hj
          rw [if_pos rfl, hl]
          exact ⟨_, rfl, rfl⟩
      · intro j q hq hqa
        simp only [updatePeering_store_lookup] at hq
        simp only [updatePeering_live_peerings, List.mem_append,
          List.mem_singleton]
        by_cases hji : j = id
        · right; exact hji
        · rw [if_neg hji] at hq
          left; exact h5 j q hq hqa
      · intro j hj
        simp only [updatePeering_keys] at hj
        simp only [updatePeering_nextId]
        exact h6 j hj
      · simp only [updatePeering_live_peerings, List.length_append,
          List.length_singleton]
        have hx := alive_filter_up_true v id (fun q =>
          { q with alive := true, expiry := now + VTX_UDP_TIMEOUT,
                   silent := now + VTX_UDP_TIMEOUT / 3 }) p h1 hl ha2
          (fun q => rfl)
        omega

theorem wf_lower (v : Vocket) (id : Nat) (h : peerings_wf v) :
    peerings_wf (peering_lower v id) := by
  obtain ⟨h1, h2, h3, h4, h5, h6, h7⟩ := h
  cases hl : zhash_lookup v.store id with
  | none =>
      rw [peering_lower_dead v id (fun q hq => by
        simp only [getPeering, hl] at hq
        exact Option.noConfusion hq)]
      exact ⟨h1, h2, h3, h4, h5, h6, h7⟩
  | some p =>
    by_cases ha : p.alive
    · rw [peering_lower_eq v id p hl ha]
      have hlive : id ∈ v.live_peerings := h5 id p hl ha
      refine ⟨?_, ?_, ?_, ?_, ?_, ?_, ?_⟩
      · simp only [updatePeering_keys]
        exact h1
      · simp only [updatePeering_keys, updatePeering_peering_list]
        exact h2
      · simp only [updatePeering_live_peerings]
        exact h3.erase id
      · intro j hj
        simp only [updatePeering_live_peerings] at hj
        have hji : j ≠ id := by
          intro hx
          subst hx
          exact (List.Nodup.not_mem_erase h3) hj
        have hj2 : j ∈ v.live_peerings := List.mem_of_mem_erase hj
        simp only [updatePeering_store_lookup]
        rw [if_neg hji]
        exact h4 j hj2
      · intro j q hq hqa
        simp only [updatePeering_store_lookup] at hq
        simp only [updatePeering_live_peerings]
        by_cases hji : j = id
        · subst hji
          rw [if_pos rfl, hl] at hq
          have hq2 : { p with alive := false } = q := by simpa using hq
          rw [← hq2] at hqa
          simp at hqa
        · rw [if_neg hji] at hq
          exact (List.mem_erase_of_ne hji).mpr (h5 j q hq hqa)
      · intro j hj
        simp only [updatePeering_keys] at hj
        simp only [updatePeering_nextId]
        exact h6 j hj
      · simp only [updatePeering_live_peerings]
        rw [List.length_erase_of_mem hlive]
        have hx := alive_filter_up_false v id
          (fun q => { q with alive := false }) p h1 hl ha (fun q => rfl)
        have hpos : 1 ≤ v.live_peerings.length :=
          List.length_pos_of_mem hlive
        omega
    · have ha2 : p.alive = false := by simpa using ha
      rw [peering_lower_dead v id (fun q hq => by
        simp only [getPeering, hl] at hq
        injection hq with hq2
        rw [← hq2]
        exact ha2)]
      exact ⟨h1, h2, h3, h4, h5, h6, h7⟩

theorem mem_keys_isSome [DecidableEq K] (l : List (K × V)) (k : K)
    (h : k ∈ l.map Prod.fst) : (zhash_lookup l k).isSome := by
  induction l with
  | nil => simp at h
  | cons e t ih =>
    simp only [List.map_cons, List.mem_cons] at h
    simp only [zhash_lookup]
    by_cases he : e.1 = k
    · rw [if_pos he]; rfl
    · rw [if_neg he]
      exact ih (h.resolve_left (fun hx => he hx.symm))

theorem lower_lookup_dead (v : Vocket) (id : Nat) (q : Peering)
    (hq : zhash_lookup (peering_lower v id).store id = some q) :
    q.alive = false := by
  cases hl : zhash_lookup v.store id with
  | none =>
      rw [peering_lower_dead v id (fun r hr => by
        simp only [getPeering, hl] at hr
        exact Option.noConfusion hr)] at hq
      rw [hl] at hq
      exact Option.noConfusion hq
  | some p =>
    by_cases ha : p.alive
    · rw [peering_lower_eq v id p hl ha] at hq
      simp only [updatePeering_store_lookup, if_pos rfl, hl] at hq
      have : { p with alive := false } = q := by simpa using hq
      rw [← this]
    · have ha2 : p.alive = false := by simpa using ha
      rw [peering_lower_dead v id (fun r hr => by
        simp only [getPeering, hl] at hr
        injection hr with hr2
        rw [← hr2]
        exact ha2)] at hq
      rw [hl] at hq
      injection hq with hq2
      rw [← hq2]
      exact ha2

theorem nodup_erase_eq_filter_decide (l : List Nat) (a : Nat) (h : l.Nodup) :
    l.erase a = l.filter (fun k => decide (k ≠ a)) := by
  induction l with
  | nil => rfl
  | cons e t ih =>
    rw [List.nodup_cons] at h
    rw [List.erase_cons, List.filter_cons]
    by_cases hea : e = a
    · rw [if_pos (by simp [hea]), if_neg (by simp [hea])]
      symm
      apply List.filter_eq_self.mpr
      intro x hx
      simp only [decide_eq_true_eq, ne_eq]
      intro hxa
      exact h.1 ((hxa.trans hea.symm) ▸ hx)
    · rw [if_neg (by simp [hea]), if_pos (by simp [hea]), ih h.2]

theorem peering_delete_none (v : Vocket) (id : Nat)
    (hl : getPeering v id = none) : peering_delete v id = v := by
  simp only [peering_delete, hl]

theorem peering_delete_eq (v : Vocket) (id : Nat) (p : Peering)
    (hl : getPeering v id = some p) :
    peering_delete v id =
      { peering_lower v id with
        peering_list := (peering_lower v id).peering_list.erase id,
        store := (peering_lower v id).store.filter (fun e => decide (e.1 ≠ id)),
        peerings := (peering_lower v id).peerings - 1 } := by
  simp only [peering_delete, hl]

theorem wf_delete (v : Vocket) (id : Nat) (h : peerings_wf v) :
    peerings_wf (peering_delete v id) := by
  cases hl : zhash_lookup v.store id with
  | none =>
      rw [peering_delete_none v id (by simp only [getPeering]; exact hl)]
      exact h
  | some p =>
    rw [peering_delete_eq v id p (by simp only [getPeering]; exact hl)]
    obtain ⟨g1, g2, g3, g4, g5, g6, g7⟩ := wf_lower v id h
    have hzd : (peering_lower v id).store.filter (fun e => decide (e.1 ≠ id))
        = zhash_delete (peering_lower v id).store id := rfl
    have hdead : ∀ q, zhash_lookup (peering_lower v id).store id = some q →
        q.alive = false := fun q hq => lower_lookup_dead v id q hq
    refine ⟨?_, ?_, ?_, ?_, ?_, ?_, ?_⟩
    · show (((peering_lower v id).store.filter
        (fun e => decide (e.1 ≠ id))).map Prod.fst).Nodup
      rw [hzd, zhash_delete_keys]
      exact g1.filter _
    · show (peering_lower v id).peering_list.erase id
        = ((peering_lower v id).store.filter
            (fun e => decide (e.1 ≠ id))).map Prod.fst
      rw [hzd, zhash_delete_keys, g2]
      exact nodup_erase_eq_filter_decide _ id g1
    · exact g3
    · intro j hj
      obtain ⟨q, hq, hqa⟩ := g4 j hj
      have hji : j ≠ id := by
        intro hx
        subst hx
        rw [(hdead q hq)] at hqa
        exact Bool.noConfusion hqa
      show ∃ q2, zhash_lookup ((peering_lower v id).store.filter
        (fun e => decide (e.1 ≠ id))) j = some q2 ∧ q2.alive = true
      rw [hzd, zhash_lookup_delete, if_neg hji]
      exact ⟨q, hq, hqa⟩
    · intro j q hq hqa
      rw [hzd, zhash_lookup_delete] at hq
      by_cases hji : j = id
      · rw [if_pos hji] at hq
        exact Option.noConfusion hq
      · rw [if_neg hji] at hq
        exact g5 j q hq hqa
    · intro j hj
      rw [hzd, zhash_delete_keys] at hj
      exact g6 j (List.mem_of_mem_filter hj)
    · show (peering_lower v id).live_peerings.length
        = (((peering_lower v id).store.filter
            (fun e => decide (e.1 ≠ id))).filter (fun e => e.2.alive)).length
      rw [hzd]
      cases hl2 : zhash_lookup (peering_lower v id).store id with
      | none =>
          have hnm : id ∉ (peering_lower v id).store.map Prod.fst := by
            intro hmem
            have := mem_keys_isSome _ id hmem
            rw [hl2] at this
            exact Bool.noConfusion this
          rw [zhash_delete_not_mem _ id hnm]
          exact g7
      | some q =>
          rw [alive_filter_delete_dead _ id q g1 hl2 (hdead q hl2)]
          exact g7

theorem wf_destroy (v : Vocket) (id : Nat) (h : peerings_wf v) :
    peerings_wf (peering_destroy v id) := by
  cases hg : getPeering v id with
  | none => simp only [peering_destroy, hg]; exact h
  | some p =>
    cases hh : zhash_lookup v.peering_hash p.address with
    | none => simp only [peering_destroy, hg, hh]; exact h
    | some id2 =>
      simp only [peering_destroy, hg, hh]
      exact wf_delete _ id2 h

theorem zhash_lookup_append_some [DecidableEq K] (h t : List (K × V)) (j : K)
    (w : V) (hs : zhash_lookup h j = some w) :
    zhash_lookup (h ++ t) j = some w := by
  induction h with
  | nil => exact Option.noConfusion hs
  | cons e s ih =>
    simp only [zhash_lookup] at hs ⊢
    by_cases he : e.1 = j
    · rw [if_pos he] at hs ⊢
      exact hs
    · rw [if_neg he] at hs ⊢
      exact ih hs

theorem peering_send_live (v : Vocket) (id c : Nat) (d : List Nat)
    (fl n : Nat) :
    (peering_send v id c d fl n).live_peerings = v.live_peerings := by
  cases hg : getPeering v id with
  | none => simp only [peering_send, hg]
  | some p =>
      simp only [peering_send, hg]
      split_ifs <;> simp

theorem peering_send_list (v : Vocket) (id c : Nat) (d : List Nat)
    (fl n : Nat) :
    (peering_send v id c d fl n).peering_list = v.peering_list := by
  cases hg : getPeering v id with
  | none => simp only [peering_send, hg]
  | some p =>
      simp only [peering_send, hg]
      split_ifs <;> simp

theorem peering_send_nextId (v : Vocket) (id c : Nat) (d : List Nat)
    (fl n : Nat) :
    (peering_send v id c d fl n).nextId = v.nextId := by
  cases hg : getPeering v id with
  | none => simp only [peering_send, hg]
  | some p =>
      simp only [peering_send, hg]
      split_ifs <;> simp

theorem peering_send_keys (v : Vocket) (id c : Nat) (d : List Nat)
    (fl n : Nat) :
    (peering_send v id c d fl n).store.map Prod.fst = v.store.map Prod.fst := by
  cases hg : getPeering v id with
  | none => simp only [peering_send, hg]
  | some p =>
      simp only [peering_send, hg]
      split_ifs <;> simp [updatePeering_keys]

theorem peering_send_lookup_alive (v : Vocket) (id c : Nat) (d : List Nat)
    (fl n j : Nat) :
    (zhash_lookup (peering_send v id c d fl n).store j).map Peering.alive
      = (zhash_lookup v.store j).map Peering.alive := by
  cases hg : getPeering v id with
  | none => simp only [peering_send, hg]
  | some p =>
      simp only [peering_send, hg]
      split_ifs
      · rw [updatePeering_store_lookup]
        by_cases hj : j = id
        · subst hj
          rw [if_pos rfl]
          have hg2 : zhash_lookup v.store j = some p := hg
          simp [hg2]
        · rw [if_neg hj]
      · rfl

theorem alive_filter_up_keep (v : Vocket) (id : Nat) (f : Peering → Peering)
    (hf : ∀ q, (f q).alive = q.alive) :
    ((updatePeering v id f).store.filter (fun e => e.2.alive)).length
      = (v.store.filter (fun e => e.2.alive)).length :=
  alive_filter_update v.store id f hf

theorem peering_send_filter_alive (v : Vocket) (id c : Nat) (d : List Nat)
    (fl n : Nat) :
    ((peering_send v id c d fl n).store.filter (fun e => e.2.alive)).length
      = (v.store.filter (fun e => e.2.alive)).length := by
  cases hg : getPeering v id with
  | none => simp only [peering_send, hg]
  | some p =>
      simp only [peering_send, hg]
      split_ifs
      · exact alive_filter_up_keep _ id _ (fun q => rfl)
      · rfl

theorem s_peering_monitor_dead (v : Vocket) (id now : Nat) (p : Peering)
    (hl : getPeering v id = some p) (ha : p.alive = false) :
    s_peering_monitor v id now =
      if p.outgoing then
        SBResult.done (peering_send v id VTX_UDP_OHAI p.address 0 now)
      else SBResult.done v := by
  simp only [s_peering_monitor, hl, ha]
  rfl

theorem s_peering_monitor_fresh (v : Vocket) (p : Peering) (now : Nat)
    (hfresh : zhash_lookup v.store v.nextId = none) (ha : p.alive = false) :
    s_peering_monitor { v with store := v.store ++ [(v.nextId, p)],
                               nextId := v.nextId + 1 } v.nextId now
      = if p.outgoing then
          SBResult.done (peering_send
            { v with store := v.store ++ [(v.nextId, p)],
                     nextId := v.nextId + 1 }
            v.nextId VTX_UDP_OHAI p.address 0 now)
        else SBResult.done { v with store := v.store ++ [(v.nextId, p)],
                                    nextId := v.nextId + 1 } := by
  apply s_peering_monitor_dead
  · show zhash_lookup (v.store ++ [(v.nextId, p)]) v.nextId = some p
    rw [zhash_lookup_append_of_none _ _ _ hfresh]
    simp [zhash_lookup]
  · exact ha

theorem peering_require_found (v : Vocket) (address : List Nat) (outg : Bool)
    (now id : Nat) (hh : zhash_lookup v.peering_hash address = some id) :
    peering_require v address outg now = (v, id) := by
  simp only [peering_require, hh]

theorem peering_require_eq (v : Vocket) (address : List Nat) (outg : Bool)
    (now : Nat) (hh : zhash_lookup v.peering_hash address = none)
    (hfresh : zhash_lookup v.store v.nextId = none) :
    peering_require v address outg now =
      (let sin := s_str_to_sin_addr address
        (if outg then s_broadcast_addr else inaddr_any)
       let isB : Bool := outg && (address.headD 0 == starByte)
       let p : Peering :=
        { alive := false, outgoing := outg, address := address,
          expiry := 0, broadcast := isB, silent := 0, addr := sin,
          bcast := if isB then sin else [], request := none, reply := none,
          sendseq := 0, recvseq := 0 }
       let v1 : Vocket := { v with store := v.store ++ [(v.nextId, p)],
                                   nextId := v.nextId + 1 }
       let v2 := if outg then
           peering_send v1 v.nextId VTX_UDP_OHAI address 0 now
         else v1
       ({ v2 with
           peering_hash := zhash_insert v2.peering_hash address v.nextId,
           peering_list := v2.peering_list ++ [v.nextId],
           peerings := v2.peerings + 1 }, v.nextId)) := by
  simp only [peering_require, hh]
  rw [s_peering_monitor_fresh v _ now hfresh]
  · cases outg <;> simp
  · rfl

theorem wf_require_core (v w : Vocket) (p : Peering)
    (H : List (List Nat × Nat)) (hpa : p.alive = false)
    (h : peerings_wf v)
    (hk : w.store.map Prod.fst = v.store.map Prod.fst ++ [v.nextId])
    (hlv : w.live_peerings = v.live_peerings)
    (hpl : w.peering_list = v.peering_list)
    (hni : w.nextId = v.nextId + 1)
    (hlook : ∀ j, (zhash_lookup w.store j).map Peering.alive
      = (zhash_lookup (v.store ++ [(v.nextId, p)]) j).map Peering.alive)
    (hfa : (w.store.filter (fun e => e.2.alive)).length
      = (v.store.filter (fun e => e.2.alive)).length) :
    peerings_wf
      { w with
        peering_hash := H,
        peering_list := w.peering_list ++ [v.nextId],
        peerings := w.peerings + 1 } := by
  obtain ⟨h1, h2, h3, h4, h5, h6, h7⟩ := h
  have hfreshk : v.nextId ∉ v.store.map Prod.fst :=
    fun hmem => absurd (h6 _ hmem) (lt_irrefl _)
  have hfresh : zhash_lookup v.store v.nextId = none :=
    zhash_lookup_not_mem _ _ hfreshk
  refine ⟨?_, ?_, ?_, ?_, ?_, ?_, ?_⟩
  · show (w.store.map Prod.fst).Nodup
    rw [hk]
    simp [List.nodup_append, h1, hfreshk]
  · show w.peering_list ++ [v.nextId] = w.store.map Prod.fst
    rw [hk, hpl, h2]
  · show w.live_peerings.Nodup
    rw [hlv]
    exact h3
  · intro j hj
    show ∃ q, zhash_lookup w.store j = some q ∧ q.alive = true
    rw [hlv] at hj
    obtain ⟨q, hq, hqa⟩ := h4 j hj
    have hj2 := hlook j
    rw [zhash_lookup_append_some _ _ _ _ hq] at hj2
    cases hw : zhash_lookup w.store j with
    | none => rw [hw] at hj2; exact Option.noConfusion hj2
    | some q2 =>
        rw [hw] at hj2
        refine ⟨q2, rfl, ?_⟩
        have : q2.alive = q.alive := by
          injection hj2
        rw [this, hqa]
  · intro j q2 hq2 hq2a
    show j ∈ w.live_peerings
    rw [hlv]
    have hj2 := hlook j
    rw [hq2] at hj2
    by_cases hji : j = v.nextId
    · subst hji
      rw [zhash_lookup_append_of_none _ _ _ hfresh] at hj2
      simp only [zhash_lookup, if_pos rfl] at hj2
      have : q2.alive = p.alive := by injection hj2
      rw [hq2a, hpa] at this
      exact Bool.noConfusion this
    · cases hv : zhash_lookup v.store j with
      | none =>
          rw [zhash_lookup_append_of_none _ _ _ hv] at hj2
          simp only [zhash_lookup] at hj2
          rw [if_neg (fun hx => hji hx.symm)] at hj2
          exact Option.noConfusion hj2
      | some q0 =>
          rw [zhash_lookup_append_some _ _ _ _ hv] at hj2
          have : q2.alive = q0.alive := by injection hj2
          rw [hq2a] at this
          exact h5 j q0 hv this.symm
  · intro j hj
    show j < w.nextId
    rw [hk] at hj
    rw [hni]
    simp only [List.mem_append, List.mem_singleton] at hj
    rcases hj with hj | hj
    · exact Nat.lt_succ_of_lt (h6 j hj)
    · rw [hj]
      exact Nat.lt_succ_self _
  · show w.live_peerings.length = (w.store.filter (fun e => e.2.alive)).length
    rw [hlv, hfa]
    exact h7

theorem wf_require (v : Vocket) (address : List Nat) (outg : Bool) (now : Nat)
    (h : peerings_wf v) :
    peerings_wf (peering_require v address outg now).1 := by
  cases hh : zhash_lookup v.peering_hash address with
  | some id =>
      rw [peering_require_found v address outg now id hh]
      exact h
  | none =>
    have h6 := h.2.2.2.2.2.1
    have hfreshk : v.nextId ∉ v.store.map Prod.fst :=
      fun hmem => absurd (h6 _ hmem) (lt_irrefl _)
    have hfresh : zhash_lookup v.store v.nextId = none :=
      zhash_lookup_not_mem _ _ hfreshk
    rw [peering_require_eq v address outg now hh hfresh]
    cases outg with
    | false =>
        simp only [Bool.false_eq_true, if_false, eq_self_iff_true, if_true]
        exact wf_require_core v
          { v with store := v.store ++ [(v.nextId, require_peering address false)],
                   nextId := v.nextId + 1 }
          (require_peering address false) _ rfl h
          (by simp [List.map_append])
          rfl rfl rfl (fun j => rfl)
          (by simp [List.filter_append, require_peering])
    | true =>
        simp only [Bool.false_eq_true, if_false, eq_self_iff_true, if_true]
        exact wf_require_core v
          (peering_send
            { v with store := v.store ++ [(v.nextId, require_peering address true)],
                     nextId := v.nextId + 1 }
            v.nextId VTX_UDP_OHAI address 0 now)
          (require_peering address true) _ rfl h
          (by rw [peering_send_keys]; simp [List.map_append])
          (by rw [peering_send_live])
          (by rw [peering_send_list])
          (by rw [peering_send_nextId])
          (fun j => by rw [peering_send_lookup_alive])
          (by rw [peering_send_filter_alive]
              simp [List.filter_append, require_peering])

theorem wf_connect (v : Vocket) (os : OsState) (a : List Nat) (n : Nat)
    (h : peerings_wf v) :
    peerings_wf (s_driver_control v os Cmd.CONNECT a n).2.1 := by
  by_cases hc : v.peerings < v.max_peerings
  · have he : (s_driver_control v os Cmd.CONNECT a n).2.1
        = (peering_require v a true n).1 := by
      simp only [s_driver_control, if_pos hc]
    rw [he]
    exact wf_require v a true n h
  · have he : (s_driver_control v os Cmd.CONNECT a n).2.1 = v := by
      simp only [s_driver_control, if_neg hc]
    rw [he]
    exact h

theorem s_binding_command_ohai (v : Vocket) (id flags recvseq : Nat)
    (body address : List Nat) (now : Nat) :
    s_binding_command v id flags 1 recvseq body address now
      = SBResult.done (peering_raise (peering_send (updatePeering v id
          (fun q => { q with expiry := now + VTX_UDP_TIMEOUT }))
          id VTX_UDP_OHAI_OK body 0 now) id now) := by
  simp only [s_binding_command]
  rfl

theorem wf_inbound_ohai (v : Vocket) (sender : List Nat) (n : Nat)
    (h : peerings_wf v) :
    peerings_wf (vstep v (VOp.inboundOhai sender n)) := by
  have hmain : ∀ w, s_binding_input v [16, 16] sender n = SBResult.done w →
      peerings_wf w := by
    intro w hw
    cases hh : zhash_lookup v.peering_hash sender with
    | some id =>
        have he : s_binding_input v [16, 16] sender n
            = s_binding_command v id 0 1 0 [] sender n := by
          simp only [s_binding_input, hh]
          norm_num [bufGet, List.getD, VTX_UDP_VERSION, VTX_UDP_CMDLIMIT,
            VTX_UDP_HEADER]
        rw [he, s_binding_command_ohai v id 0 0 [] sender n] at hw
        injection hw with hw2
        rw [← hw2]
        exact wf_raise _ id n (wf_peering_send _ id VTX_UDP_OHAI_OK [] 0 n
          (wf_updatePeering v id _ (fun q => rfl) h))
    | none =>
        have hwr := wf_require v sender false n h
        have he : s_binding_input v [16, 16] sender n
            = (if (peering_require v sender false n).1.max_peerings <
                  (peering_require v sender false n).1.peerings then
                SBResult.done (peering_destroy
                  (peering_send (peering_require v sender false n).1
                    (peering_require v sender false n).2 VTX_UDP_ROTFL
                    maxPeeringsReason 0 n)
                  (peering_require v sender false n).2)
              else s_binding_command (peering_require v sender false n).1
                (peering_require v sender false n).2 0 1 0 [] sender n) := by
          simp only [s_binding_input, hh]
          norm_num [bufGet, List.getD, VTX_UDP_VERSION, VTX_UDP_CMDLIMIT,
            VTX_UDP_HEADER, VTX_UDP_OHAI, VTX_UDP_OHAI_OK]
        rw [he] at hw
        by_cases hmax : (peering_require v sender false n).1.max_peerings <
            (peering_require v sender false n).1.peerings
        · rw [if_pos hmax] at hw
          injection hw with hw2
          rw [← hw2]
          exact wf_destroy _ _ (wf_peering_send _ _ VTX_UDP_ROTFL
            maxPeeringsReason 0 n hwr)
        · rw [if_neg hmax] at hw
          rw [s_binding_command_ohai] at hw
          injection hw with hw2
          rw [← hw2]
          exact wf_raise _ _ n (wf_peering_send _ _ VTX_UDP_OHAI_OK [] 0 n
            (wf_updatePeering _ _ _ (fun q => rfl) hwr))
  show peerings_wf (match s_binding_input v [16, 16] sender n with
    | SBResult.done v2 => v2
    | SBResult.fault => v)
  cases hsi : s_binding_input v [16, 16] sender n with
  | done v2 => exact hmain v2 hsi
  | fault => exact h

theorem wf_vstep (v : Vocket) (op : VOp) (h : peerings_wf v) :
    peerings_wf (vstep v op) := by
  cases op with
  | require a o n => exact wf_require v a o n h
  | destroy id => exact wf_destroy v id h
  | raise id n => exact wf_raise v id n h
  | lower id => exact wf_lower v id h
  | connect a n => exact wf_connect v [] a n h
  | inboundOhai s n => exact wf_inbound_ohai v s n h

theorem wf_vrun (ops : List VOp) (v : Vocket) (h : peerings_wf v) :
    peerings_wf (vrun v ops) := by
  induction ops generalizing v with
  | nil => exact h
  | cons op ops ih => exact ih (vstep v op) (wf_vstep v op h)

theorem wf_vocket_new (socktype : Nat) (v0 : Vocket)
    (hv : vocket_new socktype = some v0) : peerings_wf v0 := by
  cases hc : (s_vocket_config.filter (fun e => e.1 = socktype)).head? with
  | none =>
      simp only [vocket_new, hc] at hv
      exact Option.noConfusion hv
  | some e =>
      simp only [vocket_new, hc] at hv
      injection hv with hv2
      rw [← hv2]
      refine ⟨?_, ?_, ?_, ?_, ?_, ?_, ?_⟩ <;> simp [zhash_lookup]

/-- C7: in every vocket state reachable by the driver operations (peering
create and destroy, raise, lower, connect, inbound OHAI) from a fresh
vocket, a peering in the arena appears in `live_peerings` exactly once when
its alive flag is set and not at all when it is clear, and appears in
`peering_list` exactly once; the length of `live_peerings` equals the number
of alive peerings. -/
theorem C7_peering_membership (socktype : Nat) (v0 : Vocket)
    (hv0 : vocket_new socktype = some v0) (ops : List VOp) (v : Vocket)
    (hv : v = vrun v0 ops) :
    (∀ id p, getPeering v id = some p →
      v.live_peerings.count id = (if p.alive then 1 else 0) ∧
      v.peering_list.count id = 1) ∧
    v.live_peerings.length = (v.store.filter (fun e => e.2.alive)).length := by
  have hwf : peerings_wf v := hv ▸ wf_vrun ops v0 (wf_vocket_new socktype v0 hv0)
  obtain ⟨h1, h2, h3, h4, h5, h6, h7⟩ := hwf
  refine ⟨?_, h7⟩
  intro id p hp
  have hp2 : zhash_lookup v.store id = some p := hp
  constructor
  · by_cases ha : p.alive
    · rw [if_pos ha]
      exact List.count_eq_one_of_mem h3 (h5 id p hp2 ha)
    · rw [if_neg ha]
      rw [List.count_eq_zero]
      intro hmem
      obtain ⟨q, hq, hqa⟩ := h4 id hmem
      rw [hp2] at hq
      injection hq with hq2
      apply ha
      rw [hq2]
      exact hqa
  · rw [h2]
    exact List.count_eq_one_of_mem h1 (zhash_lookup_mem _ _ _ hp2)

/-- Witness for C7: a REQ vocket after one connect (dead outgoing peering)
and one inbound OHAI (alive incoming peering). -/
theorem C7_peering_membership_witness :
    vocket_new ZMQ_REQ = some c7_req0 ∧
    (vrun c7_req0 [VOp.connect [97, 58, 49] 0,
      VOp.inboundOhai [98, 58, 50] 1]).live_peerings.length
      = ((vrun c7_req0 [VOp.connect [97, 58, 49] 0,
          VOp.inboundOhai [98, 58, 50] 1]).store.filter
            (fun e => e.2.alive)).length :=
  ⟨by decide, (C7_peering_membership ZMQ_REQ c7_req0 (by decide)
    [VOp.connect [97, 58, 49] 0, VOp.inboundOhai [98, 58, 50] 1] _ rfl).2⟩

theorem takeWhile_ne_zero_eq (l : List Nat) (h : 0 ∉ l) :
    l.takeWhile (fun b => b ≠ 0) = l := by
  induction l with
  | nil => rfl
  | cons e t ih =>
    simp only [List.mem_cons, not_or] at h
    rw [List.takeWhile_cons]
    rw [if_pos (by simp; exact fun hx => h.1 hx.symm)]
    rw [ih h.2]

theorem s_binding_input_ohaiok_known (v : Vocket) (id now : Nat)
    (body sender : List Nat)
    (hh : zhash_lookup v.peering_hash sender = some id) :
    s_binding_input v ([16, 32] ++ body) sender now
      = s_binding_command v id 0 2 0 body sender now := by
  simp only [s_binding_input, List.cons_append, List.nil_append, hh]
  norm_num [bufGet, List.getD, VTX_UDP_VERSION, VTX_UDP_CMDLIMIT,
    VTX_UDP_HEADER]

theorem s_binding_input_ohaiok_body (v : Vocket) (id now : Nat)
    (body sender : List Nat)
    (hn : zhash_lookup v.peering_hash sender = none)
    (hb : zhash_lookup v.peering_hash (body.takeWhile (fun b => b ≠ 0))
      = some id) :
    s_binding_input v ([16, 32] ++ body) sender now
      = s_binding_command v id 0 2 0 body sender now := by
  simp only [ne_eq, decide_not] at hb
  simp only [s_binding_input, List.cons_append, List.nil_append, hn]
  norm_num [bufGet, List.getD, VTX_UDP_VERSION, VTX_UDP_CMDLIMIT,
    VTX_UDP_HEADER, VTX_UDP_OHAI_OK, hb]

theorem s_binding_command_ohaiok (v : Vocket) (id flags recvseq now : Nat)
    (body address : List Nat) :
    s_binding_command v id flags 2 recvseq body address now
      = (let v1 := updatePeering v id (fun q =>
            { q with expiry := now + VTX_UDP_TIMEOUT })
         let bodyStr := body.takeWhile (fun b => b ≠ 0)
         if address ≠ bodyStr then
           match zhash_rename v.peering_hash bodyStr address with
           | none => SBResult.fault
           | some h2 =>
             SBResult.done (peering_raise (updatePeering
               { v1 with peering_hash := h2 } id
               (fun q => { q with addr := address, address := address })) id now)
         else SBResult.done (peering_raise v1 id now)) := by
  simp only [s_binding_command, updatePeering_peering_hash]
  rfl

theorem updatePeering_store_single (v : Vocket) (p : Peering)
    (f : Peering → Peering) (h : v.store = [(0, p)]) :
    (updatePeering v 0 f).store = [(0, f p)] := by
  show v.store.map (fun e => if e.1 = 0 then (e.1, f e.2) else e) = [(0, f p)]
  rw [h]
  simp

theorem getPeering_single (v : Vocket) (p : Peering)
    (h : v.store = [(0, p)]) : getPeering v 0 = some p := by
  show zhash_lookup v.store 0 = some p
  rw [h]
  simp [zhash_lookup]

theorem binv_updatePeering (port : List Nat) (w : Vocket)
    (f : Peering → Peering)
    (hf : ∀ q, (f q).alive = q.alive ∧ (f q).address = q.address ∧
      (f q).addr = q.addr ∧ (f q).broadcast = q.broadcast ∧
      (f q).outgoing = q.outgoing ∧ (f q).bcast = q.bcast)
    (h : BInv port w) : BInv port (updatePeering w 0 f) := by
  obtain ⟨p, h1, h2, h3, h4, h5, h6, h7⟩ := h
  obtain ⟨f1, f2, f3, f4, f5, f6⟩ := hf p
  refine ⟨f p, updatePeering_store_single w p f h1, ?_, ?_, ?_, ?_, ?_, ?_⟩
  · rw [updatePeering_peering_hash, h2, f2]
  · rw [f4, h3]
  · rw [f5, h4]
  · rw [f6, h5]
  · intro ha
    rw [f1] at ha
    obtain ⟨g1, g2, g3, g4, g5⟩ := h6 ha
    rw [f2, f3]
    exact ⟨g1, g2, g3, g4, g5⟩
  · intro ha
    rw [f1] at ha
    obtain ⟨g1, g2⟩ := h7 ha
    rw [f2, f3]
    exact ⟨g1, g2⟩

theorem binv_peering_send (port : List Nat) (w : Vocket) (c : Nat)
    (d : List Nat) (fl n : Nat) (h : BInv port w) :
    BInv port (peering_send w 0 c d fl n) := by
  obtain ⟨p, h1, h2, h3, h4, h5, h6, h7⟩ := h
  have hgp : getPeering w 0 = some p := getPeering_single w p h1
  simp only [peering_send, hgp]
  split_ifs with hl
  · exact binv_updatePeering port _ _ (fun q => by simp)
      ⟨p, h1, h2, h3, h4, h5, h6, h7⟩
  · exact ⟨p, h1, h2, h3, h4, h5, h6, h7⟩

theorem headD_ne_of_address (a : List Nat) (h : a.headD 0 ≠ 66)
    (port : List Nat) : a ≠ c8_bcast port := by
  intro hx
  apply h
  rw [hx]
  rfl

theorem binv_monitor (port : List Nat) (hp0 : 0 ∉ port) (w : Vocket)
    (h : BInv port w) (now : Nat) :
    ∃ w2, s_peering_monitor w 0 now = SBResult.done w2 ∧ BInv port w2 ∧
      (∀ q, zhash_lookup w.store 0 = some q → q.alive = true →
        q.expiry < now →
        ∃ p2, zhash_lookup w2.store 0 = some p2 ∧ p2.alive = false ∧
          p2.address = c8_bcast port ∧ p2.addr = c8_bcast port ∧
          w2.peering_hash = [(c8_bcast port, 0)]) := by
  obtain ⟨p, h1, h2, h3, h4, h5, h6, h7⟩ := h
  have hgp : getPeering w 0 = some p := getPeering_single w p h1
  simp only [s_peering_monitor, hgp]
  by_cases hpa : p.alive = true
  · rw [if_pos hpa]
    obtain ⟨haddr, hcol, hze, h42, h66⟩ := h6 hpa
    by_cases hexp : p.expiry < now
    · rw [if_pos hexp]
      rw [peering_lower_eq w 0 p hgp hpa]
      rw [if_pos h3]
      have hne : p.address ≠ p.bcast := by
        rw [h5]
        exact headD_ne_of_address p.address h66 port
      have hr : zhash_rename
          ({ updatePeering w 0 (fun q => { q with alive := false }) with
             live_peerings := w.live_peerings.erase 0 }).peering_hash
          p.address p.bcast = some [(p.bcast, 0)] := by
        show zhash_rename w.peering_hash p.address p.bcast
          = some [(p.bcast, 0)]
        rw [h2]
        simp only [zhash_rename, zhash_lookup, zhash_delete, if_pos rfl]
        rw [if_neg (fun hx : p.address = p.bcast => hne hx)]
        simp
      rw [hr]
      have hst2 : (updatePeering
          { updatePeering w 0 (fun q => { q with alive := false }) with
            live_peerings := w.live_peerings.erase 0,
            peering_hash := [(p.bcast, 0)] } 0
          (fun q => { q with addr := p.bcast, address := p.bcast })).store
          = [(0, { p with alive := false, addr := p.bcast, address := p.bcast })] := by
        rw [updatePeering_store_single _ _ _ (by
          rw [updatePeering_store_single w p _ h1])]
      refine ⟨_, rfl, ?_, ?_⟩
      · refine ⟨{ p with alive := false, addr := p.bcast, address := p.bcast },
          hst2, ?_, h3, h4, h5, ?_, ?_⟩
        · rw [updatePeering_peering_hash]
        · intro ha
          exact Bool.noConfusion ha
        · intro ha
          rw [h5]
          exact ⟨Or.inr rfl, rfl⟩
      · intro q hq hqa hqe
        rw [h1] at hq
        simp only [zhash_lookup, if_pos rfl] at hq
        refine ⟨{ p with alive := false, addr := p.bcast, address := p.bcast },
          ?_, rfl, ?_, ?_, ?_⟩
        · rw [hst2]
          simp [zhash_lookup]
        · rw [← h5]
        · rw [← h5]
        · rw [updatePeering_peering_hash, h5]
    · rw [if_neg hexp]
      by_cases hsil : p.silent < now
      · rw [if_pos hsil]
        refine ⟨_, rfl, binv_peering_send port w VTX_UDP_HUGZ [] 0 now
          ⟨p, h1, h2, h3, h4, h5, h6, h7⟩, ?_⟩
        intro q hq hqa hqe
        rw [h1] at hq
        simp only [zhash_lookup, if_pos rfl] at hq
        injection hq with hq2
        rw [← hq2] at hqe
        exact absurd hqe hexp
      · rw [if_neg hsil]
        refine ⟨w, rfl, ⟨p, h1, h2, h3, h4, h5, h6, h7⟩, ?_⟩
        intro q hq hqa hqe
        rw [h1] at hq
        simp only [zhash_lookup, if_pos rfl] at hq
        injection hq with hq2
        rw [← hq2] at hqe
        exact absurd hqe hexp
  · rw [if_neg hpa]
    rw [if_pos h4]
    refine ⟨_, rfl, binv_peering_send port w VTX_UDP_OHAI p.address 0 now
      ⟨p, h1, h2, h3, h4, h5, h6, h7⟩, ?_⟩
    intro q hq hqa hqe
    rw [h1] at hq
    simp only [zhash_lookup, if_pos rfl] at hq
    injection hq with hq2
    rw [← hq2] at hqa
    exact absurd hqa hpa

theorem s_binding_command_ohaiok_same (v : Vocket) (id flags recvseq now : Nat)
    (body address : List Nat)
    (heq : ¬ address ≠ body.takeWhile (fun b => b ≠ 0)) :
    s_binding_command v id flags 2 recvseq body address now
      = SBResult.done (peering_raise (updatePeering v id
          (fun q => { q with expiry := now + VTX_UDP_TIMEOUT })) id now) := by
  rw [s_binding_command_ohaiok]
  dsimp only
  rw [if_neg heq]

theorem s_binding_command_ohaiok_ren (v : Vocket) (id flags recvseq now : Nat)
    (body address : List Nat) (hres : List (List Nat × Nat))
    (hne : address ≠ body.takeWhile (fun b => b ≠ 0))
    (hr : zhash_rename v.peering_hash (body.takeWhile (fun b => b ≠ 0))
      address = some hres) :
    s_binding_command v id flags 2 recvseq body address now
      = SBResult.done (peering_raise (updatePeering
          { updatePeering v id (fun q =>
              { q with expiry := now + VTX_UDP_TIMEOUT }) with
            peering_hash := hres } id
          (fun q => { q with addr := address, address := address })) id now) := by
  rw [s_binding_command_ohaiok]
  dsimp only
  rw [if_pos hne, hr]

theorem binv_recv_ohaiok (port : List Nat) (hp0 : 0 ∉ port) (w : Vocket)
    (h : BInv port w) (sender : List Nat) (now : Nat) :
    ∃ w2, bstep w (BOp.recvOhaiOk sender now) = SBResult.done w2 ∧
      BInv port w2 ∧
      ((58 ∈ sender ∧ 0 ∉ sender ∧ sender.headD 0 ≠ 42 ∧
          sender.headD 0 ≠ 66) →
        ∃ p2, zhash_lookup w2.store 0 = some p2 ∧ p2.alive = true ∧
          p2.address = sender ∧ p2.addr = sender ∧
          w2.peering_hash = [(sender, 0)]) := by
  obtain ⟨p, h1, h2, h3, h4, h5, h6, h7⟩ := h
  have hgp : getPeering w 0 = some p := getPeering_single w p h1
  show ∃ w2, (if 58 ∈ sender ∧ 0 ∉ sender ∧ sender.headD 0 ≠ 42 ∧
      sender.headD 0 ≠ 66 then
        match getPeering w 0 with
        | some p => s_binding_input w ([16, 32] ++ p.address) sender now
        | none => SBResult.done w
      else SBResult.done w) = SBResult.done w2 ∧ BInv port w2 ∧
      ((58 ∈ sender ∧ 0 ∉ sender ∧ sender.headD 0 ≠ 42 ∧
          sender.headD 0 ≠ 66) →
        ∃ p2, zhash_lookup w2.store 0 = some p2 ∧ p2.alive = true ∧
          p2.address = sender ∧ p2.addr = sender ∧
          w2.peering_hash = [(sender, 0)])
  by_cases hg : 58 ∈ sender ∧ 0 ∉ sender ∧ sender.headD 0 ≠ 42 ∧
      sender.headD 0 ≠ 66
  · rw [if_pos hg]
    obtain ⟨hcol, hze, h42s, h66s⟩ := hg
    simp only [hgp]
    have h0a : 0 ∉ p.address := by
      by_cases hpa : p.alive = true
      · exact (h6 hpa).2.2.1
      · rcases (h7 (by simpa using hpa)).1 with hx | hx <;> rw [hx] <;>
          simp [c8_wild, c8_bcast, hp0]
    have htw : p.address.takeWhile (fun b => b ≠ 0) = p.address :=
      takeWhile_ne_zero_eq _ h0a
    by_cases hsp : sender = p.address
    · have hlk : zhash_lookup w.peering_hash sender = some 0 := by
        rw [h2, hsp]
        simp [zhash_lookup]
      rw [s_binding_input_ohaiok_known w 0 now p.address sender hlk]
      have hpa : p.alive = true := by
        by_contra hpa
        rcases (h7 (by simpa using hpa)).1 with hx | hx
        · apply h42s
          rw [hsp, hx]
          rfl
        · apply h66s
          rw [hsp, hx]
          rfl
      rw [s_binding_command_ohaiok_same w 0 0 0 now p.address sender (by
        rw [htw]; exact fun hx => hx hsp)]
      have hgp1 : getPeering (updatePeering w 0
          (fun q => { q with expiry := now + VTX_UDP_TIMEOUT })) 0
          = some { p with expiry := now + VTX_UDP_TIMEOUT } := by
        rw [getPeering_update_self, hgp]
        rfl
      rw [peering_raise_alive _ 0 now _ hgp1 (by simpa using hpa)]
      refine ⟨_, rfl, binv_updatePeering port w _ (fun q => by simp)
        ⟨p, h1, h2, h3, h4, h5, h6, h7⟩, ?_⟩
      intro _
      refine ⟨{ p with expiry := now + VTX_UDP_TIMEOUT }, ?_, hpa, hsp.symm,
        ?_, ?_⟩
      · rw [updatePeering_store_single w p _ h1]
        simp [zhash_lookup]
      · show p.addr = sender
        rw [(h6 hpa).1, hsp]
      · rw [updatePeering_peering_hash, h2, hsp]
    · have hlkn : zhash_lookup w.peering_hash sender = none := by
        rw [h2]
        simp only [zhash_lookup]
        rw [if_neg (fun hx => hsp hx.symm)]
      have hlkb : zhash_lookup w.peering_hash
          (p.address.takeWhile (fun b => b ≠ 0)) = some 0 := by
        rw [htw, h2]
        simp [zhash_lookup]
      rw [s_binding_input_ohaiok_body w 0 now p.address sender hlkn hlkb]
      have hr : zhash_rename w.peering_hash
          (p.address.takeWhile (fun b => b ≠ 0)) sender
          = some [(sender, 0)] := by
        rw [htw, h2]
        simp only [zhash_rename, zhash_lookup, zhash_delete, if_pos rfl]
        rw [if_neg (fun hx : p.address = sender => hsp hx.symm)]
        simp
      rw [s_binding_command_ohaiok_ren w 0 0 0 now p.address sender
        [(sender, 0)] (by rw [htw]; exact hsp) hr]
      set p2 : Peering := { p with expiry := now + VTX_UDP_TIMEOUT, addr := sender, address := sender } with hp2
      have hst2 : (updatePeering
          { updatePeering w 0 (fun q =>
              { q with expiry := now + VTX_UDP_TIMEOUT }) with
            peering_hash := [(sender, 0)] } 0
          (fun q => { q with addr := sender, address := sender })).store
          = [(0, p2)] := by
        rw [updatePeering_store_single _ _ _ (by
          rw [updatePeering_store_single w p _ h1])]
      by_cases hpa : p.alive = true
      · rw [peering_raise_alive _ 0 now p2 (getPeering_single _ p2 hst2)
          (by rw [hp2]; simpa using hpa)]
        refine ⟨_, rfl, ⟨p2, hst2, ?_, h3, h4, h5, ?_, ?_⟩, ?_⟩
        · simp only [updatePeering_peering_hash, hp2]
        · intro _
          exact ⟨rfl, hcol, hze, h42s, h66s⟩
        · intro ha
          rw [hp2] at ha
          simp only at ha
          rw [hpa] at ha
          exact Bool.noConfusion ha
        · intro _
          refine ⟨p2, ?_, ?_, rfl, rfl, ?_⟩
          · rw [hst2]
            simp [zhash_lookup]
          · rw [hp2]
            simp only
            exact hpa
          · simp only [updatePeering_peering_hash]
      · have hpa2 : p.alive = false := by simpa using hpa
        rw [peering_raise_eq _ 0 now p2 (getPeering_single _ p2 hst2)
          (by rw [hp2]; simpa using hpa2)]
        set p3 : Peering := { p2 with alive := true, expiry := now + VTX_UDP_TIMEOUT, silent := now + VTX_UDP_TIMEOUT / 3 } with hp3
        have hst3 : (updatePeering
            { updatePeering w 0 (fun q =>
                { q with expiry := now + VTX_UDP_TIMEOUT }) with
              peering_hash := [(sender, 0)] } 0
            (fun q => { q with addr := sender, address := sender })).store
            = [(0, p2)] := hst2
        refine ⟨_, rfl, ⟨p3, ?_, ?_, h3, h4, h5, ?_, ?_⟩, ?_⟩
        · exact updatePeering_store_single _ p2 (fun q =>
            { q with alive := true, expiry := now + VTX_UDP_TIMEOUT,
                     silent := now + VTX_UDP_TIMEOUT / 3 }) hst2
        · simp only [updatePeering_peering_hash, hp3, hp2]
        · intro _
          exact ⟨rfl, hcol, hze, h42s, h66s⟩
        · intro ha
          rw [hp3] at ha
          simp only at ha
          exact Bool.noConfusion ha
        · intro _
          refine ⟨p3, ?_, ?_, ?_, ?_, ?_⟩
          · rw [updatePeering_store_single _ p2 (fun q =>
              { q with alive := true, expiry := now + VTX_UDP_TIMEOUT,
                       silent := now + VTX_UDP_TIMEOUT / 3 }) hst3]
            simp [zhash_lookup, hp3, hp2]
          · rw [hp3]
          · rw [hp3, hp2]
          · rw [hp3, hp2]
          · simp only [updatePeering_peering_hash]
  · rw [if_neg hg]
    exact ⟨w, rfl, ⟨p, h1, h2, h3, h4, h5, h6, h7⟩, fun hgx => absurd hgx hg⟩

theorem binv_brun (port : List Nat) (hp0 : 0 ∉ port) (ops : List BOp)
    (w : Vocket) (h : BInv port w) :
    ∃ w2, brun w ops = SBResult.done w2 ∧ BInv port w2 := by
  induction ops generalizing w with
  | nil => exact ⟨w, rfl, h⟩
  | cons op ops ih =>
    cases op with
    | recvOhaiOk sender now =>
        obtain ⟨w1, hw1, hI1, _⟩ := binv_recv_ohaiok port hp0 w h sender now
        obtain ⟨w2, hw2, hI2⟩ := ih w1 hI1
        refine ⟨w2, ?_, hI2⟩
        show (match bstep w (BOp.recvOhaiOk sender now) with
          | SBResult.done x => brun x ops
          | SBResult.fault => SBResult.fault) = SBResult.done w2
        rw [hw1]
        exact hw2
    | monitor now =>
        obtain ⟨w1, hw1, hI1, _⟩ := binv_monitor port hp0 w h now
        obtain ⟨w2, hw2, hI2⟩ := ih w1 hI1
        refine ⟨w2, ?_, hI2⟩
        show (match s_peering_monitor w 0 now with
          | SBResult.done x => brun x ops
          | SBResult.fault => SBResult.fault) = SBResult.done w2
        rw [hw1]
        exact hw2

theorem binv_init (port : List Nat) (hp0 : 0 ∉ port) (hp58 : 58 ∉ port)
    (hplen : port.length ≤ 500) : BInv port (c8_vocket port) := by
  have hlen : port.length + 1 + 1 + 2 ≤ 512 := by omega
  have hlen2 : port.length + 4 ≤ 512 := by omega
  refine ⟨{
      alive := false, outgoing := true, address := c8_wild port,
      expiry := 0, broadcast := true, silent := VTX_UDP_TIMEOUT / 3,
      addr := c8_bcast port, bcast := c8_bcast port, request := none,
      reply := none, sendseq := 0, recvseq := 0 }, ?_, ?_, rfl, rfl, rfl,
    ?_, ?_⟩
  · show (c8_vocket port).store = _
    simp [c8_vocket, s_driver_control, peering_require, peering_send,
      s_peering_monitor, getPeering, updatePeering, zhash_lookup,
      zhash_insert, peering_raise, peering_lower, s_str_to_sin_addr,
      hostOf, portOf, c8_wild, c8_bcast, colonByte, starByte,
      s_broadcast_addr, vocket_new, s_vocket_config, ZMQ_REQ,
      VTX_UDP_HEADER, VTX_UDP_MSGMAX, VTX_MAX_PEERINGS, hlen, hlen2]
  · show (c8_vocket port).peering_hash = _
    simp [c8_vocket, s_driver_control, peering_require, peering_send,
      s_peering_monitor, getPeering, updatePeering, zhash_lookup,
      zhash_insert, peering_raise, peering_lower, s_str_to_sin_addr,
      hostOf, portOf, c8_wild, c8_bcast, colonByte, starByte,
      s_broadcast_addr, vocket_new, s_vocket_config, ZMQ_REQ,
      VTX_UDP_HEADER, VTX_UDP_MSGMAX, VTX_MAX_PEERINGS, hlen, hlen2]
  · intro ha
    exact Bool.noConfusion ha
  · intro _
    exact ⟨Or.inl rfl, rfl⟩

/-- C8 (amended): for a wildcard connect on a REQ vocket every sequence of
well-formed OHAI-OK datagrams and monitor ticks keeps the driver alive and
maintains the focus invariant: the peering-table key always equals the
peering's stored address — a concrete focused remote address while the
peering is alive, and the ORIGINAL WILDCARD address or the broadcast
address while it is dead; a well-formed OHAI-OK echoing the current key
focuses key, stored address and send address onto the sender, and the
expiry of the alive peering unfocuses all three to the broadcast address
without destroying the peering. -/
theorem C8_broadcast_focus (port : List Nat) (hp0 : 0 ∉ port)
    (hp58 : 58 ∉ port) (hplen : port.length ≤ 500) (ops : List BOp) :
    (∃ w, brun (c8_vocket port) ops = SBResult.done w ∧ BInv port w) ∧
    (∀ w sender now, BInv port w →
      58 ∈ sender → 0 ∉ sender → sender.headD 0 ≠ 42 → sender.headD 0 ≠ 66 →
      ∃ w2, bstep w (BOp.recvOhaiOk sender now) = SBResult.done w2 ∧
        ∃ p2, zhash_lookup w2.store 0 = some p2 ∧ p2.alive = true ∧
          p2.address = sender ∧ p2.addr = sender ∧
          w2.peering_hash = [(sender, 0)]) ∧
    (∀ w now p, BInv port w → zhash_lookup w.store 0 = some p →
      p.alive = true → p.expiry < now →
      ∃ w2, bstep w (BOp.monitor now) = SBResult.done w2 ∧
        ∃ p2, zhash_lookup w2.store 0 = some p2 ∧ p2.alive = false ∧
          p2.address = c8_bcast port ∧ p2.addr = c8_bcast port ∧
          w2.peering_hash = [(c8_bcast port, 0)]) := by
  refine ⟨binv_brun port hp0 ops _ (binv_init port hp0 hp58 hplen), ?_, ?_⟩
  · intro w sender now hI hcol hze h42 h66
    obtain ⟨w2, hs, _, hfocus⟩ := binv_recv_ohaiok port hp0 w hI sender now
    exact ⟨w2, hs, hfocus ⟨hcol, hze, h42, h66⟩⟩
  · intro w now p hI hp hpa hpe
    obtain ⟨w2, hs, _, hunf⟩ := binv_monitor port hp0 w hI now
    obtain ⟨p2, a, b, c, d, e⟩ := hunf p hp hpa hpe
    exact ⟨w2, hs, p2, a, b, c, d, e⟩

/-- Witness for C8 at port text "5": one focusing OHAI-OK, one expiring
monitor tick. -/
theorem C8_broadcast_focus_witness :
    (0 ∉ [53] ∧ 58 ∉ [53] ∧ [53].length ≤ 500) ∧
    (∃ w, brun (c8_vocket [53]) [BOp.recvOhaiOk [97, 58, 49] 5,
      BOp.monitor 99999] = SBResult.done w ∧ BInv [53] w) :=
  ⟨⟨by decide, by decide, by decide⟩,
   (C8_broadcast_focus [53] (by decide) (by decide) (by decide)
     [BOp.recvOhaiOk [97, 58, 49] 5, BOp.monitor 99999]).1⟩

/-- C8 counterexample: directly after the wildcard connect the dead
broadcast peering is keyed in the peering table under the WILDCARD address
"*:5", not under the broadcast address "BC:5" as the claim states. -/
theorem C8_initial_key_counterexample :
    zhash_lookup (c8_vocket [53]).peering_hash [42, 58, 53] = some 0 ∧
    zhash_lookup (c8_vocket [53]).peering_hash [66, 67, 58, 53] = none ∧
    (zhash_lookup (c8_vocket [53]).store 0).map Peering.alive = some false ∧
    (zhash_lookup (c8_vocket [53]).store 0).map Peering.broadcast
      = some true := by decide

end VTX
